import Mathlib

/-!
# mac-free: a verification development

A shallow embedding of the `free` replacement for macOS (`src/memory.c`,
`src/utils.c`, `src/main.c`) and theorems about its memory accounting, its unit
conversion and its sampling loop.

Conventions of the embedding.

* `uint64_t` values are natural numbers; every operation that can wrap is
  written with an explicit `% 2 ^ 64` (`u64`).  Storing a 64-bit value in a
  64-bit field and widening a 32-bit counter to `uint64_t` change nothing and
  are not marked.
* The kernel is an explicit argument: a `Host` records what each system call
  answers at the moment of one sample.
* `double` values are rationals and every floating-point operation rounds its
  exact result to the nearest binary64 value (`fl`).
* The sampling loop of `main` produces the list of its observable events; it is
  driven by a `World` that fixes what the kernel answers in each cycle and what
  each read of the volatile flag `g_running` returns.
-/

namespace MacFree

/-! ## Types of `utils.h` and `memory.h` -/

/-- Output unit types (`unit_type_t`). -/
inductive unit_type_t
  | UNIT_BYTES
  | UNIT_KIBI
  | UNIT_MEBI
  | UNIT_GIBI
  | UNIT_TEBI
  | UNIT_KILO
  | UNIT_MEGA
  | UNIT_GIGA
  | UNIT_TERA
  | UNIT_HUMAN
  deriving DecidableEq, Repr

/-- Command-line options (`options_t`); the `int` fields are integers. -/
structure options_t where
  unit : unit_type_t
  wide : Int
  seconds : Int
  count : Int
  totals : Int
  lohi : Int
  deriving DecidableEq, Repr

/-- Physical memory information (`mem_info_t`), all fields `uint64_t`. -/
structure mem_info_t where
  total : Nat
  used : Nat
  free : Nat
  active : Nat
  inactive : Nat
  wired : Nat
  compressed : Nat
  cached : Nat
  app_memory : Nat
  available : Nat
  deriving DecidableEq, Repr

/-- Swap information (`swap_info_t`). -/
structure swap_info_t where
  total : Nat
  used : Nat
  free : Nat
  deriving DecidableEq, Repr

/-- Combined system memory information (`system_memory_t`). -/
structure system_memory_t where
  mem : mem_info_t
  swap : swap_info_t
  page_size : Nat
  deriving DecidableEq, Repr

/-! ## The kernel interface -/

/-- The page counters of `vm_statistics64_data_t` that `get_memory_info` reads. -/
structure vm_statistics64_data_t where
  free_count : Nat
  active_count : Nat
  inactive_count : Nat
  wire_count : Nat
  compressor_page_count : Nat
  purgeable_count : Nat
  deriving DecidableEq, Repr

/-- The result of `sysctl VM_SWAPUSAGE` (`struct xsw_usage`). -/
structure xsw_usage where
  xsu_total : Nat
  xsu_avail : Nat
  xsu_used : Nat
  deriving DecidableEq, Repr

/-- What the kernel answers during one sample.

* `hw_memsize`: the value stored by `sysctl HW_MEMSIZE`, `none` when the call fails;
* `vm_info64`: the counters stored by `host_statistics64`, `none` when it fails;
* `page_size_kr`: the `kern_return_t` of `host_page_size` (0 is `KERN_SUCCESS`);
* `page_size`: what the local variable `page_size` of `get_page_size` holds after
  the call (on failure the variable was never written, so this is whatever the
  stack held);
* `swapusage`: the structure stored by `sysctl VM_SWAPUSAGE`, `none` when it fails. -/
structure Host where
  hw_memsize : Option Nat
  vm_info64 : Option vm_statistics64_data_t
  page_size_kr : Int
  page_size : Nat
  swapusage : Option xsw_usage
  deriving DecidableEq, Repr

/-- The result of a `uint64_t` operation: the value modulo `2 ^ 64`. -/
def u64 (n : Nat) : Nat := n % 2 ^ 64

/-- The state left by `memset(mem, 0, sizeof(mem_info_t))`. -/
def mem_zero : mem_info_t :=
  { total := 0, used := 0, free := 0, active := 0, inactive := 0, wired := 0,
    compressed := 0, cached := 0, app_memory := 0, available := 0 }

/-- The state left by `memset(swap, 0, sizeof(swap_info_t))`. -/
def swap_zero : swap_info_t := { total := 0, used := 0, free := 0 }

/-! ## `memory.c` -/

/-- The function `get_page_size`: the status of `host_page_size` is not looked
at, the content of the local variable is returned. -/
def get_page_size (h : Host) : Nat := h.page_size

/-- The function `get_total_memory`: 0 when `sysctl` fails. -/
def get_total_memory (h : Host) : Nat :=
  match h.hw_memsize with
  | none => 0
  | some t => t

/-- The function `get_vm_stats` (called with a non-null pointer): status and the
structure it filled; the status is 0 exactly when the structure was filled. -/
def get_vm_stats (h : Host) : Int × Option vm_statistics64_data_t :=
  match h.vm_info64 with
  | none => (-1, none)
  | some v => (0, some v)

/-- The function `get_memory_info` (called with a non-null pointer): the status
and the content of `*mem` on return. -/
def get_memory_info (h : Host) : Int × mem_info_t :=
  let mem := mem_zero
  let mem := { mem with total := get_total_memory h }
  if mem.total = 0 then (-1, mem)
  else
    match get_vm_stats h with
    | (_, none) => (-1, mem)
    | (_, some vm_stats) =>
      let page_size := get_page_size h
      let mem := { mem with free := u64 (vm_stats.free_count * page_size) }
      let mem := { mem with active := u64 (vm_stats.active_count * page_size) }
      let mem := { mem with inactive := u64 (vm_stats.inactive_count * page_size) }
      let mem := { mem with wired := u64 (vm_stats.wire_count * page_size) }
      let mem := { mem with compressed := u64 (vm_stats.compressor_page_count * page_size) }
      let mem := { mem with cached := u64 (vm_stats.purgeable_count * page_size) }
      let mem := { mem with used := u64 (mem.active + mem.wired + mem.compressed) }
      let mem := { mem with available := u64 (mem.free + mem.inactive + mem.cached) }
      let mem := { mem with app_memory := mem.active }
      (0, mem)

/-- The function `get_swap_info` (called with a non-null pointer). -/
def get_swap_info (h : Host) : Int × swap_info_t :=
  let swap := swap_zero
  match h.swapusage with
  | none => (-1, swap)
  | some swap_usage =>
    (0, { total := swap_usage.xsu_total, used := swap_usage.xsu_used,
          free := swap_usage.xsu_avail })

/-- The function `get_system_memory` (called with a non-null pointer): the status
and the content of `*sys_mem` on return.  The warning written to `stderr` when
the swap read fails is not part of the result. -/
def get_system_memory (h : Host) : Int × system_memory_t :=
  let page_size := get_page_size h
  let m := get_memory_info h
  if m.1 ≠ 0 then (-1, { mem := m.2, swap := swap_zero, page_size := page_size })
  else
    let s := get_swap_info h
    (0, { mem := m.2, swap := s.2, page_size := page_size })

/-! ## `utils.c`: options -/

/-- The function `init_options`: the defaults written into `*opts`. -/
def init_options : options_t :=
  { unit := unit_type_t.UNIT_KIBI, wide := 0, seconds := 0, count := -1, totals := 0,
    lohi := 0 }

/-! ## `main.c`: the sampling loop -/

/-- The exit status `EXIT_SUCCESS` of `<stdlib.h>`. -/
def EXIT_SUCCESS : Int := 0

/-- The exit status `EXIT_FAILURE` of `<stdlib.h>`, which is 1 on macOS. -/
def EXIT_FAILURE : Int := 1

/-- What the loop of `main` does, in program order.  Every event carries the
number of the cycle it belongs to (the value of `iterations` after the
increment of that cycle). -/
inductive Event
  | sample (cycle : Nat) (status : Int)
  | render (cycle : Nat) (snapshot : system_memory_t)
  | sleep (cycle : Nat) (seconds : Int)
  | newline (cycle : Nat)
  | error_message (cycle : Nat)
  | exit (status : Int)
  deriving DecidableEq, Repr

/-- The surroundings of one run: the kernel as seen by the sample of each cycle
and the value that each read of the volatile flag `g_running` returns.  Cycle
`k` reads the flag at three places, numbered `3 * k` (the `if` after the
render), `3 * k + 1` (after `sleep`) and `3 * k + 2` (the `while` condition). -/
structure World where
  host : Nat → Host
  g_running : Nat → Bool

/-- Read point of `if (opts.seconds > 0 && g_running)` in cycle `k`. -/
def at_if (k : Nat) : Nat := 3 * k

/-- Read point of `if (g_running)` after the `sleep` of cycle `k`. -/
def at_wake (k : Nat) : Nat := 3 * k + 1

/-- Read point of the `while` condition of cycle `k`. -/
def at_while (k : Nat) : Nat := 3 * k + 2

/-- The only writer of the flag is `signal_handler`, which clears it: once a
read returned 0 every later read returns 0. -/
def flag_monotone (w : World) : Prop :=
  ∀ s t : Nat, s ≤ t → w.g_running s = false → w.g_running t = false

/-- The `do ... while` loop of `main`, started with the given value of
`iterations`; the first argument bounds the number of cycles that are unfolded.
A run that ends contains an `exit` event as its last event.

`iterations` never overflows where it is looked at: it is only compared when
`count` is non-zero, and then the loop ends at the latest when it reaches
`count`. -/
def main_loop (opts : options_t) (w : World) : Nat → Nat → List Event
  | 0, _ => []
  | fuel + 1, iterations =>
    let k := iterations + 1
    let r := get_system_memory (w.host k)
    if r.1 ≠ 0 then
      [Event.sample k r.1, Event.error_message k, Event.exit EXIT_FAILURE]
    else
      let iterations := iterations + 1
      let again : List Event :=
        if opts.seconds > 0 ∧ w.g_running (at_while k) = true ∧
            (opts.count = 0 ∨ (iterations : Int) < opts.count) then
          main_loop opts w fuel iterations
        else [Event.exit EXIT_SUCCESS]
      if opts.seconds > 0 ∧ w.g_running (at_if k) = true then
        if opts.count > 0 ∧ (iterations : Int) ≥ opts.count then
          [Event.sample k r.1, Event.render k r.2, Event.exit EXIT_SUCCESS]
        else
          [Event.sample k r.1, Event.render k r.2, Event.sleep k opts.seconds] ++
            (if w.g_running (at_wake k) = true then [Event.newline k] else []) ++ again
      else
        [Event.sample k r.1, Event.render k r.2] ++ again

/-- The run of `main` after argument parsing: the loop entered with
`iterations = 0`. -/
def run (opts : options_t) (w : World) (fuel : Nat) : List Event :=
  main_loop opts w fuel 0

/-- Is the event a render. -/
def Event.is_render : Event → Bool
  | Event.render _ _ => true
  | _ => false

/-- Is the event a sample acquisition. -/
def Event.is_sample : Event → Bool
  | Event.sample _ _ => true
  | _ => false

/-- Is the event an inter-cycle wait. -/
def Event.is_sleep : Event → Bool
  | Event.sleep _ _ => true
  | _ => false

/-- Number of renders in a trace. -/
def renders (t : List Event) : Nat := t.countP Event.is_render

/-- Number of sample acquisitions in a trace. -/
def samples (t : List Event) : Nat := t.countP Event.is_sample

/-- Number of waits in a trace. -/
def sleeps (t : List Event) : Nat := t.countP Event.is_sleep

/-- A kernel on which every call succeeds: 16 GiB, 16 KiB pages. -/
def host_ok : Host :=
  { hw_memsize := some 17179869184,
    vm_info64 := some { free_count := 100, active_count := 200, inactive_count := 50,
                        wire_count := 30, compressor_page_count := 20,
                        purgeable_count := 10 },
    page_size_kr := 0, page_size := 16384,
    swapusage := some { xsu_total := 2147483648, xsu_avail := 1073741824,
                        xsu_used := 1073741824 } }

/-- A run in which every sample succeeds and no signal arrives. -/
def world_ok : World := { host := fun _ => host_ok, g_running := fun _ => true }

/-- A run in which every sample succeeds and the signal arrived before the
first read of the flag. -/
def world_cancelled : World := { host := fun _ => host_ok, g_running := fun _ => false }

/-- The exit status of a finished run: the status of the `exit` event that ends
the trace, `none` for a trace that does not end with one. -/
def exit_status : List Event → Option Int
  | [] => none
  | [Event.exit s] => some s
  | _ :: t => exit_status t

/-- A kernel on which the primary memory read fails (`sysctl HW_MEMSIZE` fails). -/
def host_down : Host := { host_ok with hw_memsize := none }

/-- A kernel on which only the swap read fails. -/
def host_no_swap : Host := { host_ok with swapusage := none }

/-- A kernel on which `host_page_size` fails (status 4, `KERN_INVALID_ARGUMENT`)
and the variable `page_size`, which the call did not write, holds 0. -/
def host_no_page_size : Host := { host_ok with page_size_kr := 4, page_size := 0 }

/-- A kernel with 4 KiB pages and the page counters 100, 200, 50, 30, 20, 10. -/
def host_4k : Host := { host_ok with page_size := 4096 }

/-- A run in which every sample succeeds and the signal arrives during the wait
of the second cycle: the reads up to the `if` of cycle 2 return 1, the later
ones 0. -/
def world_signal_in_second_wait : World :=
  { host := fun _ => host_ok, g_running := fun t => decide (t ≤ at_if 2) }

/-- A run without signal in which the primary memory read fails in cycle 3. -/
def world_fail_third : World :=
  { host := fun k => if k = 3 then host_down else host_ok, g_running := fun _ => true }

/-- A run without signal in which the primary memory read fails at once. -/
def world_fail_first : World := { host := fun _ => host_down, g_running := fun _ => true }

/-- A run without signal on a kernel whose page-size read fails. -/
def world_no_page_size : World :=
  { host := fun _ => host_no_page_size, g_running := fun _ => true }

/-- A run without signal on a kernel whose swap read fails. -/
def world_no_swap : World := { host := fun _ => host_no_swap, g_running := fun _ => true }

/-! ## binary64 arithmetic

A finite `double` is the rational number it denotes.  An arithmetic operation
of IEEE 754 returns the exact result rounded to the nearest value with a 53-bit
significand, ties to even (the default rounding mode, which the program never
changes).  The exponent range is not modelled: every value the program computes
from 64-bit integers is 0 or lies between `2 ^ (-65)` and `2 ^ 65`, far inside
the range of normal binary64 numbers, so neither overflow nor gradual underflow
occurs. -/

/-- Rounding of a rational to the nearest integer, ties to the even one. -/
def round_half_even (m : ℚ) : ℤ :=
  let f := ⌊m⌋
  if m - f < 1 / 2 then f
  else if 1 / 2 < m - f then f + 1
  else if f % 2 = 0 then f else f + 1

/-- The exponent `e` of the binade of `q`: `2 ^ e ≤ |q| < 2 ^ (e + 1)`. -/
def binade (q : ℚ) : ℤ := Int.log 2 |q|

/-- The spacing of binary64 numbers in the binade of `q`. -/
def ulp (q : ℚ) : ℚ := (2 : ℚ) ^ (binade q - 52)

/-- Rounding to binary64: the multiple of `ulp q` nearest to `q`, ties to the
even significand. -/
def fl (q : ℚ) : ℚ := round_half_even (q / ulp q) * ulp q

/-- The conversion `(double)n` of an unsigned integer. -/
def double_of_u64 (n : Nat) : ℚ := fl n

/-- A floating constant of the source text, rounded by the compiler. -/
def double_lit (q : ℚ) : ℚ := fl q

/-- The operation `x / y` on `double` (for `y ≠ 0`). -/
def double_div (x y : ℚ) : ℚ := fl (x / y)

/-- The operation `x * y` on `double`. -/
def double_mul (x y : ℚ) : ℚ := fl (x * y)

/-- The operation `x + y` on `double`. -/
def double_add (x y : ℚ) : ℚ := fl (x + y)

/-! ## `memory.c`: memory pressure -/

/-- The function `calculate_memory_pressure`; a null pointer is `none`. -/
def calculate_memory_pressure (mem : Option mem_info_t) : ℚ :=
  match mem with
  | none => 0
  | some mem =>
    if mem.total = 0 then 0
    else
      let used_ratio := double_div (double_of_u64 mem.used) (double_of_u64 mem.total)
      let compressed_ratio :=
        double_div (double_of_u64 mem.compressed) (double_of_u64 mem.total)
      let pressure := double_add used_ratio (double_mul compressed_ratio (double_lit (1 / 2)))
      let pressure := if pressure > 1 then 1 else pressure
      let pressure := if pressure < 0 then 0 else pressure
      pressure

/-- The clamp of the specification: `x` limited to the interval from `lo` to `hi`. -/
def clamp (x lo hi : ℚ) : ℚ := max lo (min x hi)

/-! ## `utils.c`: unit conversion -/

/-- The constant `BYTES_PER_KB`. -/
def BYTES_PER_KB : Nat := 1024

/-- The constant `BYTES_PER_MB`, an `unsigned long long` product. -/
def BYTES_PER_MB : Nat := u64 (1024 * 1024)

/-- The constant `BYTES_PER_GB`, an `unsigned long long` product. -/
def BYTES_PER_GB : Nat := u64 (u64 (1024 * 1024) * 1024)

/-- The function `convert_unit`.  An integer divisor is converted to `double`
before the division. -/
def convert_unit (bytes : Nat) (unit : unit_type_t) : ℚ :=
  match unit with
  | unit_type_t.UNIT_KIBI => double_div (double_of_u64 bytes) (double_of_u64 BYTES_PER_KB)
  | unit_type_t.UNIT_MEBI => double_div (double_of_u64 bytes) (double_of_u64 BYTES_PER_MB)
  | unit_type_t.UNIT_GIBI => double_div (double_of_u64 bytes) (double_of_u64 BYTES_PER_GB)
  | unit_type_t.UNIT_TEBI =>
    double_div (double_of_u64 bytes) (double_of_u64 (u64 (BYTES_PER_GB * 1024)))
  | unit_type_t.UNIT_KILO => double_div (double_of_u64 bytes) (double_lit 1000)
  | unit_type_t.UNIT_MEGA => double_div (double_of_u64 bytes) (double_lit 1000000)
  | unit_type_t.UNIT_GIGA => double_div (double_of_u64 bytes) (double_lit 1000000000)
  | unit_type_t.UNIT_TERA => double_div (double_of_u64 bytes) (double_lit 1000000000000)
  | unit_type_t.UNIT_BYTES => double_of_u64 bytes
  | unit_type_t.UNIT_HUMAN => double_of_u64 bytes

/-- A snapshot with more used than total memory and nothing compressed. -/
def mem_overcommitted : mem_info_t := { mem_zero with total := 1, used := 2 }

/-- A snapshot with 1 byte used out of 4 and nothing compressed. -/
def mem_quarter : mem_info_t := { mem_zero with total := 4, used := 1 }

/-! ## Formatted output

The standard output is the list of the characters written to it.  The
conversions of `printf` that the program uses are modelled as follows.

* `%Ns` pads on the left with spaces up to `N` characters, `%-Ns` on the right;
  a longer string is written whole.
* `%llu` writes the decimal digits of the number.
* `%.1f` and `%.0f` write a non-negative `double` rounded to one and to no
  fractional digit; the decimal conversion is correctly rounded, ties to even,
  as in the C library of macOS. -/

/-- The conversion `%Ns`: right-aligned in a field of `w` characters. -/
def pad_left (w : Nat) (s : List Char) : List Char :=
  List.replicate (w - s.length) ' ' ++ s

/-- The conversion `%-Ns`: left-aligned in a field of `w` characters. -/
def pad_right (w : Nat) (s : List Char) : List Char :=
  s ++ List.replicate (w - s.length) ' '

/-- The conversion `%llu`. -/
def printf_llu (n : Nat) : List Char := Nat.toDigits 10 n

/-- The conversion `%.0f` of a non-negative value. -/
def printf_f0 (v : ℚ) : List Char := Nat.toDigits 10 (round_half_even v).toNat

/-- The conversion `%.1f` of a non-negative value: the integer part, the point
and one digit. -/
def printf_f1 (v : ℚ) : List Char :=
  Nat.toDigits 10 ((round_half_even (v * 10)).toNat / 10) ++
    ['.', Nat.digitChar ((round_half_even (v * 10)).toNat % 10)]

/-- The result of `snprintf(buf, bufsize, ...)` for `bufsize ≥ 1`: the C string
left in `buf`, at most `bufsize - 1` characters of the text. -/
def snprintf (bufsize : Nat) (text : List Char) : List Char := text.take (bufsize - 1)

/-! ## `utils.c`: human-readable format -/

/-- The function `format_human` (called with a non-null `buf`): the C string left
in `buf`, `none` when `bufsize` is 0 and nothing is written. -/
def format_human (bytes : Nat) (bufsize : Nat) : Option (List Char) :=
  if bufsize = 0 then none
  else if bytes ≥ BYTES_PER_GB then
    some (snprintf bufsize
      (printf_f1 (double_div (double_of_u64 bytes) (double_of_u64 BYTES_PER_GB)) ++ ['G', 'i']))
  else if bytes ≥ BYTES_PER_MB then
    some (snprintf bufsize
      (printf_f1 (double_div (double_of_u64 bytes) (double_of_u64 BYTES_PER_MB)) ++ ['M', 'i']))
  else if bytes ≥ BYTES_PER_KB then
    some (snprintf bufsize
      (printf_f1 (double_div (double_of_u64 bytes) (double_of_u64 BYTES_PER_KB)) ++ ['K', 'i']))
  else
    some (snprintf bufsize (printf_llu bytes ++ ['B']))

/-! ## `display.c` -/

/-- The function `print_value`: one cell, a space and the value right-aligned in
11 characters (human mode, through a buffer of 32 bytes) or 12 characters. -/
def print_value (bytes : Nat) (opts : options_t) : List Char :=
  if opts.unit = unit_type_t.UNIT_HUMAN then
    match format_human bytes 32 with
    | some buf => ' ' :: pad_left 11 buf
    | none => ' ' :: pad_left 11 []
  else
    let val := convert_unit bytes opts.unit
    if opts.unit = unit_type_t.UNIT_BYTES then ' ' :: pad_left 12 (printf_llu bytes)
    else ' ' :: pad_left 12 (printf_f0 val)

/-- The format `"%-7s"` followed by one `" %Ns"` per column label, as `print_header`
uses it. -/
def header_cells (w : Nat) (labels : List String) : List Char :=
  pad_right 7 [] ++ (labels.map (fun l => ' ' :: pad_left w l.toList)).flatten

/-- The header row: what `print_header` writes before the newline. -/
def header_row (opts : options_t) : List Char :=
  if opts.unit = unit_type_t.UNIT_HUMAN then
    if opts.wide ≠ 0 then
      header_cells 11
        ["total", "used", "free", "active", "inactive", "wired", "compressed", "available"]
    else
      header_cells 11 ["total", "used", "free", "shared", "buff/cache", "available"]
  else
    if opts.wide ≠ 0 then
      header_cells 12
        ["total", "used", "free", "active", "inactive", "wired", "compressed", "available"]
    else
      header_cells 12 ["total", "used", "free", "shared", "buff/cache", "available"]

/-- The function `print_header`. -/
def print_header (opts : options_t) : List Char := header_row opts ++ ['\n']

/-- The padding loop of the swap row: `num_cols` times `" %11s"` or `" %12s"` of
the empty string. -/
def blank_cells (opts : options_t) : Nat → List Char
  | 0 => []
  | n + 1 =>
    (if opts.unit = unit_type_t.UNIT_HUMAN then ' ' :: pad_left 11 []
     else ' ' :: pad_left 12 []) ++ blank_cells opts n

/-- The memory row: what `print_numeric` writes before the first newline. -/
def mem_row (mem : mem_info_t) (opts : options_t) : List Char :=
  pad_right 7 ['M', 'e', 'm', ':'] ++ print_value mem.total opts ++
    print_value mem.used opts ++ print_value mem.free opts ++
    (if opts.wide ≠ 0 then
      print_value mem.active opts ++ print_value mem.inactive opts ++
        print_value mem.wired opts ++ print_value mem.compressed opts
     else
      print_value mem.compressed opts ++ print_value (u64 (mem.cached + mem.inactive)) opts) ++
    print_value mem.available opts

/-- The swap row: what `print_numeric` writes between the two newlines. -/
def swap_row (swap : swap_info_t) (opts : options_t) : List Char :=
  pad_right 7 ['S', 'w', 'a', 'p', ':'] ++ print_value swap.total opts ++
    print_value swap.used opts ++ print_value swap.free opts ++
    (if opts.wide ≠ 0 then blank_cells opts 5 else blank_cells opts 3)

/-- The function `print_numeric`. -/
def print_numeric (mem : mem_info_t) (swap : swap_info_t) (opts : options_t) : List Char :=
  mem_row mem opts ++ ['\n'] ++ swap_row swap opts ++ ['\n']

/-- The function `print_human`. -/
def print_human (mem : mem_info_t) (swap : swap_info_t) (opts : options_t) : List Char :=
  print_numeric mem swap opts

/-- The function `print_totals`; the three sums are `uint64_t` additions. -/
def print_totals (mem : mem_info_t) (swap : swap_info_t) (opts : options_t) : List Char :=
  let total_mem := u64 (mem.total + swap.total)
  let total_used := u64 (mem.used + swap.used)
  let total_free := u64 (mem.free + swap.free)
  pad_right 7 ['T', 'o', 't', 'a', 'l', ':'] ++ print_value total_mem opts ++
    print_value total_used opts ++ print_value total_free opts ++ ['\n']

/-- The loop `for (i = 0; i < width; i++) putchar(c)`. -/
def putchar_loop (c : Char) : Nat → List Char
  | 0 => []
  | n + 1 => c :: putchar_loop c n

/-- The width chosen by `print_separator`. -/
def separator_width (opts : options_t) : Nat :=
  if opts.wide ≠ 0 then
    (if opts.unit = unit_type_t.UNIT_HUMAN then 97 else 115)
  else
    (if opts.unit = unit_type_t.UNIT_HUMAN then 67 else 79)

/-- The function `print_separator`. -/
def print_separator (opts : options_t) : List Char :=
  putchar_loop '-' (separator_width opts) ++ ['\n']

/-- The function `print_memory_info`. -/
def print_memory_info (sys_mem : system_memory_t) (opts : options_t) : List Char :=
  print_header opts ++
    (if opts.unit = unit_type_t.UNIT_HUMAN then print_human sys_mem.mem sys_mem.swap opts
     else print_numeric sys_mem.mem sys_mem.swap opts) ++
    (if opts.totals ≠ 0 then print_totals sys_mem.mem sys_mem.swap opts else [])

/-- The text of a value before it is padded into its cell by `print_value`. -/
def value_text (bytes : Nat) (opts : options_t) : List Char :=
  if opts.unit = unit_type_t.UNIT_HUMAN then (format_human bytes 32).getD []
  else if opts.unit = unit_type_t.UNIT_BYTES then printf_llu bytes
  else printf_f0 (convert_unit bytes opts.unit)

/-- The field width of a value cell: 11 in human mode, 12 otherwise. -/
def column_width (opts : options_t) : Nat :=
  if opts.unit = unit_type_t.UNIT_HUMAN then 11 else 12

/-- The number of value columns: 8 in wide mode, 6 in compact mode. -/
def column_count (opts : options_t) : Nat := if opts.wide ≠ 0 then 8 else 6

/-- The values that the memory row and the swap row display. -/
def shown_values (sys_mem : system_memory_t) (opts : options_t) : List Nat :=
  [sys_mem.mem.total, sys_mem.mem.used, sys_mem.mem.free] ++
    (if opts.wide ≠ 0 then
      [sys_mem.mem.active, sys_mem.mem.inactive, sys_mem.mem.wired, sys_mem.mem.compressed]
     else [sys_mem.mem.compressed, u64 (sys_mem.mem.cached + sys_mem.mem.inactive)]) ++
    [sys_mem.mem.available, sys_mem.swap.total, sys_mem.swap.used, sys_mem.swap.free]

/-- A snapshot whose memory total and swap total are both `2 ^ 63` bytes. -/
def sys_huge : system_memory_t :=
  { mem := { mem_zero with total := 2 ^ 63 }, swap := { total := 2 ^ 63, used := 0, free := 0 },
    page_size := 4096 }

/-- The options `-b -t`: bytes, compact, with the totals row. -/
def opts_bytes_totals : options_t :=
  { init_options with unit := unit_type_t.UNIT_BYTES, totals := 1 }

/-- A snapshot whose values are all below 1024 bytes. -/
def sys_tiny : system_memory_t :=
  { mem := { total := 1000, used := 600, free := 100, active := 300, inactive := 200,
             wired := 200, compressed := 100, cached := 100, app_memory := 300,
             available := 400 },
    swap := { total := 512, used := 12, free := 500 }, page_size := 1 }

/-- A snapshot with 1 byte used out of 3 and nothing compressed. -/
def mem_third : mem_info_t := { mem_zero with total := 3, used := 1 }

/-- A snapshot with 1 byte used and 1 byte compressed out of 4. -/
def mem_three_eighths : mem_info_t := { mem_zero with total := 4, used := 1, compressed := 1 }

/-! # Theorems -/

/-! ## Traces -/

@[simp] theorem exit_status_nil : exit_status [] = none := rfl

@[simp] theorem exit_status_sample (k : Nat) (s : Int) (t : List Event) :
    exit_status (Event.sample k s :: t) = exit_status t := by
  cases t <;> simp [exit_status]

@[simp] theorem exit_status_render (k : Nat) (s : system_memory_t) (t : List Event) :
    exit_status (Event.render k s :: t) = exit_status t := by
  cases t <;> simp [exit_status]

@[simp] theorem exit_status_sleep (k : Nat) (s : Int) (t : List Event) :
    exit_status (Event.sleep k s :: t) = exit_status t := by
  cases t <;> simp [exit_status]

@[simp] theorem exit_status_newline (k : Nat) (t : List Event) :
    exit_status (Event.newline k :: t) = exit_status t := by
  cases t <;> simp [exit_status]

@[simp] theorem exit_status_error_message (k : Nat) (t : List Event) :
    exit_status (Event.error_message k :: t) = exit_status t := by
  cases t <;> simp [exit_status]

@[simp] theorem exit_status_exit (s : Int) : exit_status [Event.exit s] = some s := rfl

/-- On the kernel `host_ok` the sample succeeds. -/
theorem host_ok_status : (get_system_memory host_ok).1 = 0 := by decide

/-! ## The sampling loop -/

/-- Counting the events of a bounded run in which nothing stops the loop early:
started with `iterations = i` and `count = i + d + 1`, the loop performs `d + 1`
cycles and `d` waits. -/
theorem bounded_loop_counts (opts : options_t) (w : World)
    (hsec : 1 ≤ opts.seconds)
    (hok : ∀ k, (get_system_memory (w.host k)).1 = 0)
    (hrun : ∀ t, w.g_running t = true) :
    ∀ (d i fuel : Nat), opts.count = (i : Int) + d + 1 → d + 1 ≤ fuel →
      samples (main_loop opts w fuel i) = d + 1 ∧
      renders (main_loop opts w fuel i) = d + 1 ∧
      sleeps (main_loop opts w fuel i) = d ∧
      exit_status (main_loop opts w fuel i) = some EXIT_SUCCESS := by
  intro d
  induction d with
  | zero =>
    intro i fuel hc hf
    obtain ⟨f, rfl⟩ : ∃ f, fuel = f + 1 := ⟨fuel - 1, by omega⟩
    have hs : 0 < opts.seconds := by omega
    have hc1 : 0 < opts.count := by omega
    have hc2 : opts.count ≤ (i : Int) + 1 := by omega
    simp [main_loop, hok, hrun, hs, hc1, hc2, samples, renders, sleeps, Event.is_sample,
      Event.is_render, Event.is_sleep]
  | succ d ih =>
    intro i fuel hc hf
    obtain ⟨f, rfl⟩ : ∃ f, fuel = f + 1 := ⟨fuel - 1, by omega⟩
    have hs : 0 < opts.seconds := by omega
    have hc2 : ¬ opts.count ≤ (i : Int) + 1 := by omega
    have hc3 : (i : Int) + 1 < opts.count := by omega
    have hrec := ih (i + 1) f (by push_cast; push_cast at hc; omega) (by omega)
    obtain ⟨h1, h2, h3, h4⟩ := hrec
    simp only [samples, renders, sleeps] at h1 h2 h3
    simp [main_loop, hok, hrun, hs, hc2, hc3, samples, renders, sleeps, Event.is_sample,
      Event.is_render, Event.is_sleep, h1, h2, h3, h4]

/-- Whatever the flag does, a bounded loop ends: started with `iterations = i`
and `count = i + d + 1` it performs at most `d + 1` cycles and at most `d`
waits, and exits with success when every sample succeeds. -/
theorem bounded_loop_ends (opts : options_t) (w : World)
    (hok : ∀ k, (get_system_memory (w.host k)).1 = 0) :
    ∀ (d i fuel : Nat), opts.count = (i : Int) + d + 1 → d + 1 ≤ fuel →
      samples (main_loop opts w fuel i) ≤ d + 1 ∧
      renders (main_loop opts w fuel i) ≤ d + 1 ∧
      sleeps (main_loop opts w fuel i) ≤ d ∧
      exit_status (main_loop opts w fuel i) = some EXIT_SUCCESS := by
  intro d
  induction d with
  | zero =>
    intro i fuel hc hf
    obtain ⟨f, rfl⟩ : ∃ f, fuel = f + 1 := ⟨fuel - 1, by omega⟩
    have hc0 : opts.count ≠ 0 := by omega
    have hc1 : 0 < opts.count := by omega
    have hc2 : opts.count ≤ (i : Int) + 1 := by omega
    have hc3 : ¬ ((i : Int) + 1 < opts.count) := by omega
    simp only [main_loop, hok, ne_eq, not_true_eq_false, if_false]
    split_ifs <;>
      simp_all [samples, renders, sleeps, Event.is_sample, Event.is_render, Event.is_sleep]
  | succ d ih =>
    intro i fuel hc hf
    obtain ⟨f, rfl⟩ : ∃ f, fuel = f + 1 := ⟨fuel - 1, by omega⟩
    obtain ⟨h1, h2, h3, h4⟩ := ih (i + 1) f (by push_cast; push_cast at hc; omega) (by omega)
    simp only [samples, renders, sleeps] at h1 h2 h3
    have hc2 : ¬ opts.count ≤ (i : Int) + 1 := by omega
    simp only [main_loop, hok, ne_eq, not_true_eq_false, if_false]
    split_ifs <;>
      simp [samples, renders, sleeps, Event.is_sample, Event.is_render, Event.is_sleep, h4] <;>
      omega

/-- A wait in cycle `k` after which the `while` condition reads the flag as
cleared: the loop started at `iterations = i` performs the cycles `i + 1 .. k`
and nothing more, and exits with success. -/
theorem cancelled_wait_loop (opts : options_t) (w : World) (k : Nat) (sec : Int)
    (hwhile : w.g_running (at_while k) = false) :
    ∀ (fuel i : Nat), Event.sleep k sec ∈ main_loop opts w fuel i →
      i < k ∧ samples (main_loop opts w fuel i) = k - i ∧
      renders (main_loop opts w fuel i) = k - i ∧
      (∀ j st, Event.sample j st ∈ main_loop opts w fuel i → j ≤ k) ∧
      (∀ j snap, Event.render j snap ∈ main_loop opts w fuel i → j ≤ k) ∧
      exit_status (main_loop opts w fuel i) = some EXIT_SUCCESS := by
  intro fuel
  induction fuel with
  | zero => intro i h; simp [main_loop] at h
  | succ f ih =>
    intro i h
    by_cases hr : (get_system_memory (w.host (i + 1))).1 = 0
    · by_cases hk : k = i + 1
      · subst hk
        simp only [main_loop, hr, ne_eq, not_true_eq_false, if_false, hwhile, Bool.false_eq_true,
          false_and, and_false] at h ⊢
        split_ifs at h ⊢ <;>
          simp [samples, renders, Event.is_sample, Event.is_render] at h ⊢
      · simp only [main_loop, hr, ne_eq, not_true_eq_false, if_false] at h ⊢
        split_ifs at h ⊢ <;>
          simp [hk] at h <;>
          (obtain ⟨h1, h2, h3, h4, h5, h6⟩ := ih (i + 1) h
           simp only [samples, renders] at h2 h3
           refine ⟨by omega, ?_, ?_, ?_, ?_, ?_⟩
           · simp [samples, Event.is_sample, h2]
             omega
           · simp [renders, Event.is_render, h3]
             omega
           · intro j st hj
             simp at hj
             rcases hj with hj | hj
             · omega
             · exact h4 j st hj
           · intro j snap hj
             simp at hj
             rcases hj with hj | hj
             · omega
             · exact h5 j snap hj
           · simp [h6])
    · simp [main_loop, hr] at h

/-- A failed sample in cycle `k`: the loop started at `iterations = i` renders
the cycles `i + 1 .. k - 1` only and exits with failure. -/
theorem failed_sample_loop (opts : options_t) (w : World) (k : Nat) (st : Int) (hst : st ≠ 0) :
    ∀ (fuel i : Nat), Event.sample k st ∈ main_loop opts w fuel i →
      i < k ∧ renders (main_loop opts w fuel i) = k - 1 - i ∧
      (∀ j snap, Event.render j snap ∈ main_loop opts w fuel i → j < k) ∧
      exit_status (main_loop opts w fuel i) = some EXIT_FAILURE := by
  intro fuel
  induction fuel with
  | zero => intro i h; simp [main_loop] at h
  | succ f ih =>
    intro i h
    by_cases hr : (get_system_memory (w.host (i + 1))).1 = 0
    · simp only [main_loop, hr, ne_eq, not_true_eq_false, if_false] at h ⊢
      split_ifs at h ⊢ <;>
        simp [hst.symm, hst] at h <;>
        (obtain ⟨h1, h2, h3, h4⟩ := ih (i + 1) h
         refine ⟨by omega, ?_, ?_, ?_⟩
         · simp only [renders] at h2
           simp [renders, Event.is_render, h2]
           omega
         · intro j snap hj
           simp at hj
           rcases hj with hj | hj
           · omega
           · exact h3 j snap hj
         · simp [h4])
    · simp only [main_loop, hr, ne_eq, not_false_eq_true, if_true] at h ⊢
      simp at h
      obtain ⟨rfl, rfl⟩ := h
      simp [renders, Event.is_render]

/-- C1 (the code at the failing input): with the defaults of `init_options`,
where `count` is -1, and any interval given with `-s`, on a kernel where every
sample succeeds and without any signal, the loop performs exactly one cycle and
exits with success.  For `-s 2` the whole run is: sample, render, one sleep of
2 seconds, newline, exit 0: the `while` condition
`count == 0 || iterations < count` is false for `count = -1`. -/
theorem default_count_runs_one_cycle (s : Int) (fuel : Nat) :
    samples (run { init_options with seconds := s } world_ok (fuel + 1)) = 1 ∧
    renders (run { init_options with seconds := s } world_ok (fuel + 1)) = 1 ∧
    exit_status (run { init_options with seconds := s } world_ok (fuel + 1)) =
      some EXIT_SUCCESS ∧
    run { init_options with seconds := 2 } world_ok (fuel + 1) =
      [Event.sample 1 0, Event.render 1 (get_system_memory host_ok).2,
       Event.sleep 1 2, Event.newline 1, Event.exit EXIT_SUCCESS] := by
  have h : (get_system_memory host_ok).1 = 0 := host_ok_status
  refine ⟨?_, ?_, ?_, ?_⟩
  · by_cases hs : 0 < s <;>
      simp [run, main_loop, world_ok, h, init_options, hs, samples, Event.is_sample]
  · by_cases hs : 0 < s <;>
      simp [run, main_loop, world_ok, h, init_options, hs, renders, Event.is_render]
  · by_cases hs : 0 < s <;>
      simp [run, main_loop, world_ok, h, init_options, hs]
  · simp [run, main_loop, world_ok, h, init_options]

/-- C2 (amended): for every interval of at least 1 second and every count
`N ≥ 1`, when every sample succeeds, the loop ends with success after at most
`N` sample+render cycles and at most `N - 1` waits whatever the flag
`g_running` does, and when the flag is never read as cleared it performs
exactly `N` cycles and exactly `N - 1` waits (any fuel of at least `N` cycles
shows it). -/
theorem bounded_run_without_cancellation (opts : options_t) (w : World) (N fuel : Nat)
    (hsec : 1 ≤ opts.seconds) (hN : 1 ≤ N) (hcount : opts.count = (N : Int))
    (hok : ∀ k, (get_system_memory (w.host k)).1 = 0) (hfuel : N ≤ fuel) :
    (exit_status (run opts w fuel) = some EXIT_SUCCESS ∧
      renders (run opts w fuel) ≤ N ∧ sleeps (run opts w fuel) ≤ N - 1) ∧
    ((∀ t, w.g_running t = true) →
      samples (run opts w fuel) = N ∧ renders (run opts w fuel) = N ∧
      sleeps (run opts w fuel) = N - 1) := by
  obtain ⟨d, rfl⟩ : ∃ d, N = d + 1 := ⟨N - 1, by omega⟩
  have hc : opts.count = ((0 : Nat) : Int) + d + 1 := by rw [hcount]; push_cast; ring
  constructor
  · obtain ⟨_, h2, h3, h4⟩ := bounded_loop_ends opts w hok d 0 fuel hc hfuel
    exact ⟨h4, h2, by simpa using h3⟩
  · intro hrun
    obtain ⟨h1, h2, h3, _⟩ := bounded_loop_counts opts w hsec hok hrun d 0 fuel hc hfuel
    exact ⟨h1, h2, by simpa using h3⟩

/-- C2 (witness): `-s 1 -c 3` without cancellation gives 3 cycles and 2 waits and
exit status 0. -/
theorem bounded_run_without_cancellation_witness :
    exit_status (run { init_options with seconds := 1, count := 3 } world_ok 3) =
      some EXIT_SUCCESS ∧
    samples (run { init_options with seconds := 1, count := 3 } world_ok 3) = 3 ∧
    renders (run { init_options with seconds := 1, count := 3 } world_ok 3) = 3 ∧
    sleeps (run { init_options with seconds := 1, count := 3 } world_ok 3) = 3 - 1 :=
  have h := bounded_run_without_cancellation { init_options with seconds := 1, count := 3 }
    world_ok 3 3 (by decide) (by decide) (by decide) (fun _ => host_ok_status) (by decide)
  ⟨h.1.1, h.2 (fun _ => rfl)⟩

/-- C2 (counterexample): `-s 1 -c 3` with every sample succeeding and the signal
arriving before the first check performs 1 cycle and no wait, not 3 cycles and
2 waits. -/
theorem bounded_run_cancelled_early :
    samples (run { init_options with seconds := 1, count := 3 } world_cancelled 3) = 1 ∧
    renders (run { init_options with seconds := 1, count := 3 } world_cancelled 3) = 1 ∧
    sleeps (run { init_options with seconds := 1, count := 3 } world_cancelled 3) = 0 ∧
    exit_status (run { init_options with seconds := 1, count := 3 } world_cancelled 3) =
      some EXIT_SUCCESS ∧
    ¬ (renders (run { init_options with seconds := 1, count := 3 } world_cancelled 3) = 3 ∧
       sleeps (run { init_options with seconds := 1, count := 3 } world_cancelled 3) = 2) := by
  decide

/-- C3: in every run, if the wait of cycle `k` is performed and the flag is found
cleared on waking (the signal arrived during the sleep; the flag is only ever
cleared), then the run consists of exactly `k` samples and `k` renders, none of
them in a cycle after `k`, and it ends with exit status 0.  A wait is only
performed when `seconds ≥ 1`. -/
theorem cancellation_during_wait_stops (opts : options_t) (w : World) (fuel k : Nat)
    (sec : Int) (hmono : flag_monotone w)
    (hsleep : Event.sleep k sec ∈ run opts w fuel)
    (hset : w.g_running (at_wake k) = false) :
    samples (run opts w fuel) = k ∧ renders (run opts w fuel) = k ∧
    (∀ j st, Event.sample j st ∈ run opts w fuel → j ≤ k) ∧
    (∀ j snap, Event.render j snap ∈ run opts w fuel → j ≤ k) ∧
    exit_status (run opts w fuel) = some EXIT_SUCCESS := by
  have hwhile : w.g_running (at_while k) = false :=
    hmono (at_wake k) (at_while k) (by simp [at_wake, at_while]) hset
  obtain ⟨_, h2, h3, h4, h5, h6⟩ := cancelled_wait_loop opts w k sec hwhile fuel 0 hsleep
  exact ⟨by simpa using h2, by simpa using h3, h4, h5, h6⟩

/-- C3 (witness): `-s 1 -c 5`, signal during the second wait: 2 samples, 2 renders,
exit status 0. -/
theorem cancellation_during_wait_stops_witness :
    Event.sleep 2 1 ∈ run { init_options with seconds := 1, count := 5 }
      world_signal_in_second_wait 5 ∧
    samples (run { init_options with seconds := 1, count := 5 }
      world_signal_in_second_wait 5) = 2 ∧
    renders (run { init_options with seconds := 1, count := 5 }
      world_signal_in_second_wait 5) = 2 ∧
    exit_status (run { init_options with seconds := 1, count := 5 }
      world_signal_in_second_wait 5) = some EXIT_SUCCESS :=
  have hmono : flag_monotone world_signal_in_second_wait := by
    intro s t hst h
    simp only [world_signal_in_second_wait, decide_eq_false_iff_not] at h ⊢
    omega
  have hsleep : Event.sleep 2 1 ∈ run { init_options with seconds := 1, count := 5 }
      world_signal_in_second_wait 5 := by decide
  have h := cancellation_during_wait_stops { init_options with seconds := 1, count := 5 }
    world_signal_in_second_wait 5 2 1 hmono hsleep (by decide)
  ⟨hsleep, h.1, h.2.1, h.2.2.2.2⟩

/-- C4: in every run, if the sample of cycle `k` is taken and `get_system_memory`
returns a non-zero status there, then the whole run contains exactly `k - 1`
renders, none of them in cycle `k` or later, and it ends with `EXIT_FAILURE`,
which is not 0. -/
theorem failed_sample_aborts (opts : options_t) (w : World) (fuel k : Nat) (st : Int)
    (hsample : Event.sample k st ∈ run opts w fuel) (hst : st ≠ 0) :
    renders (run opts w fuel) = k - 1 ∧
    (∀ j snap, Event.render j snap ∈ run opts w fuel → j < k) ∧
    exit_status (run opts w fuel) = some EXIT_FAILURE ∧ EXIT_FAILURE ≠ 0 := by
  obtain ⟨_, h2, h3, h4⟩ := failed_sample_loop opts w k st hst fuel 0 hsample
  exact ⟨by simpa using h2, h3, h4, by decide⟩

/-- C4 (witness): a failure in cycle 3 of `-s 1 -c 5` leaves 2 renders, a failure
in the first cycle of a one-shot run leaves none. -/
theorem failed_sample_aborts_witness :
    (renders (run { init_options with seconds := 1, count := 5 } world_fail_third 5) = 3 - 1 ∧
     exit_status (run { init_options with seconds := 1, count := 5 } world_fail_third 5) =
       some EXIT_FAILURE) ∧
    (renders (run init_options world_fail_first 1) = 1 - 1 ∧
     exit_status (run init_options world_fail_first 1) = some EXIT_FAILURE) :=
  have h3 := failed_sample_aborts { init_options with seconds := 1, count := 5 }
    world_fail_third 5 3 (-1) (by decide) (by decide)
  have h1 := failed_sample_aborts init_options world_fail_first 1 1 (-1) (by decide)
    (by decide)
  ⟨⟨h3.1, h3.2.2.1⟩, ⟨h1.1, h1.2.2.1⟩⟩

/-! ## Memory accounting -/

/-- C5: for every kernel answer with a non-zero total `T`, page counters `v` and
any page size, `get_memory_info` succeeds and fills the snapshot with `total = T`,
each byte field equal to its counter times the page size, `used = active + wired +
compressed = (active_count + wire_count + compressor_page_count) * page_size`,
`available = free + inactive + cached = (free_count + inactive_count +
purgeable_count) * page_size` and `app_memory = active`, every product and sum
taken modulo `2 ^ 64`. -/
theorem get_memory_info_accounting (h : Host) (T : Nat) (v : vm_statistics64_data_t)
    (hT : h.hw_memsize = some T) (hT0 : T ≠ 0) (hv : h.vm_info64 = some v) :
    (get_memory_info h).1 = 0 ∧
    (get_memory_info h).2.total = T ∧
    (get_memory_info h).2.free = (v.free_count * h.page_size) % 2 ^ 64 ∧
    (get_memory_info h).2.active = (v.active_count * h.page_size) % 2 ^ 64 ∧
    (get_memory_info h).2.inactive = (v.inactive_count * h.page_size) % 2 ^ 64 ∧
    (get_memory_info h).2.wired = (v.wire_count * h.page_size) % 2 ^ 64 ∧
    (get_memory_info h).2.compressed = (v.compressor_page_count * h.page_size) % 2 ^ 64 ∧
    (get_memory_info h).2.cached = (v.purgeable_count * h.page_size) % 2 ^ 64 ∧
    (get_memory_info h).2.used =
      ((get_memory_info h).2.active + (get_memory_info h).2.wired +
        (get_memory_info h).2.compressed) % 2 ^ 64 ∧
    (get_memory_info h).2.used =
      ((v.active_count + v.wire_count + v.compressor_page_count) * h.page_size) % 2 ^ 64 ∧
    (get_memory_info h).2.available =
      ((get_memory_info h).2.free + (get_memory_info h).2.inactive +
        (get_memory_info h).2.cached) % 2 ^ 64 ∧
    (get_memory_info h).2.available =
      ((v.free_count + v.inactive_count + v.purgeable_count) * h.page_size) % 2 ^ 64 ∧
    (get_memory_info h).2.app_memory = (get_memory_info h).2.active := by
  have e : get_memory_info h =
      (0, { total := T,
            used := u64 (u64 (v.active_count * h.page_size) + u64 (v.wire_count * h.page_size) +
              u64 (v.compressor_page_count * h.page_size)),
            free := u64 (v.free_count * h.page_size),
            active := u64 (v.active_count * h.page_size),
            inactive := u64 (v.inactive_count * h.page_size),
            wired := u64 (v.wire_count * h.page_size),
            compressed := u64 (v.compressor_page_count * h.page_size),
            cached := u64 (v.purgeable_count * h.page_size),
            app_memory := u64 (v.active_count * h.page_size),
            available := u64 (u64 (v.free_count * h.page_size) +
              u64 (v.inactive_count * h.page_size) + u64 (v.purgeable_count * h.page_size)) }) := by
    simp [get_memory_info, get_total_memory, get_vm_stats, get_page_size, mem_zero, hT, hT0, hv]
  rw [e]
  refine ⟨rfl, rfl, rfl, rfl, rfl, rfl, rfl, rfl, rfl, ?_, rfl, ?_, rfl⟩
  · simp only [u64]
    rw [Nat.add_mul, Nat.add_mul]
    omega
  · simp only [u64]
    rw [Nat.add_mul, Nat.add_mul]
    omega

/-- C5 (witness): counters 100, 200, 50, 30, 20, 10 and page size 4096 give
`used = 250 * 4096` and `available = 160 * 4096`. -/
theorem get_memory_info_accounting_witness :
    (get_memory_info host_4k).2.used = ((200 + 30 + 20) * 4096) % 2 ^ 64 ∧
    (get_memory_info host_4k).2.available = ((100 + 50 + 10) * 4096) % 2 ^ 64 ∧
    ((200 + 30 + 20) * 4096) % 2 ^ 64 = 250 * 4096 ∧
    ((100 + 50 + 10) * 4096) % 2 ^ 64 = 160 * 4096 :=
  have h := get_memory_info_accounting host_4k 17179869184
    { free_count := 100, active_count := 200, inactive_count := 50, wire_count := 30,
      compressor_page_count := 20, purgeable_count := 10 } rfl (by decide) rfl
  ⟨h.2.2.2.2.2.2.2.2.2.1, h.2.2.2.2.2.2.2.2.2.2.2.1, by decide, by decide⟩

/-- C6 (the code at the failing input): the status of `get_system_memory` does
not depend on the page-size read at all; on a kernel whose `host_page_size`
fails and leaves 0 in `page_size`, `get_system_memory` returns 0 with a snapshot
whose used, free, active, inactive, wired, compressed, cached and available
fields are all 0, and the one-shot run renders that snapshot and exits with
success. -/
theorem page_size_failure_not_detected :
    (∀ (h : Host) (kr : Int) (ps : Nat),
      (get_system_memory { h with page_size_kr := kr, page_size := ps }).1 =
        (get_system_memory h).1) ∧
    host_no_page_size.page_size_kr ≠ 0 ∧
    get_system_memory host_no_page_size =
      (0, { mem := { mem_zero with total := 17179869184 },
            swap := { total := 2147483648, used := 1073741824, free := 1073741824 },
            page_size := 0 }) ∧
    run init_options world_no_page_size 1 =
      [Event.sample 1 0, Event.render 1 (get_system_memory host_no_page_size).2,
       Event.exit EXIT_SUCCESS] := by
  refine ⟨?_, by decide, by decide, by decide⟩
  intro h kr ps
  cases hm : h.hw_memsize with
  | none => simp [get_system_memory, get_memory_info, get_total_memory, hm]
  | some t =>
    cases hv : h.vm_info64 with
    | none =>
      by_cases ht : t = 0 <;>
        simp [get_system_memory, get_memory_info, get_total_memory, get_vm_stats, hm, hv, ht,
          mem_zero]
    | some v =>
      by_cases ht : t = 0 <;>
        simp [get_system_memory, get_memory_info, get_total_memory, get_vm_stats, hm, hv, ht,
          mem_zero]

/-- C7: whenever the primary memory read succeeds, `get_system_memory` returns 0
and the memory snapshot of `get_memory_info` whatever the swap read does; if the
swap read fails the swap snapshot is all zeros, and a loop cycle on such a kernel
renders that snapshot right after the sample; if the swap read succeeds the swap
snapshot holds the reported total, used and available values unchanged. -/
theorem swap_failure_is_not_fatal (h : Host) (hmem : (get_memory_info h).1 = 0) :
    (get_system_memory h).1 = 0 ∧
    (∀ s : Option xsw_usage,
      (get_system_memory { h with swapusage := s }).1 = 0 ∧
      (get_system_memory { h with swapusage := s }).2.mem = (get_system_memory h).2.mem) ∧
    (h.swapusage = none →
      (get_system_memory h).2.swap = { total := 0, used := 0, free := 0 } ∧
      ∀ (opts : options_t) (w : World) (fuel i : Nat), w.host (i + 1) = h →
        (main_loop opts w (fuel + 1) i).take 2 =
          [Event.sample (i + 1) 0,
           Event.render (i + 1)
             { mem := (get_memory_info h).2, swap := { total := 0, used := 0, free := 0 },
               page_size := h.page_size }]) ∧
    (∀ s : xsw_usage, h.swapusage = some s →
      (get_system_memory h).2.swap =
        { total := s.xsu_total, used := s.xsu_used, free := s.xsu_avail }) := by
  have hmem2 : ∀ s : Option xsw_usage,
      get_memory_info { h with swapusage := s } = get_memory_info h := by
    intro s
    simp [get_memory_info, get_total_memory, get_vm_stats, get_page_size]
  refine ⟨by simp [get_system_memory, hmem], ?_, ?_, ?_⟩
  · intro s
    simp [get_system_memory, hmem, hmem2]
  · intro hs
    have e : get_system_memory h =
        (0, { mem := (get_memory_info h).2, swap := { total := 0, used := 0, free := 0 },
              page_size := h.page_size }) := by
      simp [get_system_memory, hmem, get_swap_info, hs, swap_zero, get_page_size]
    refine ⟨by rw [e], ?_⟩
    intro opts w fuel i hw
    simp only [main_loop, hw, e, ne_eq, not_true_eq_false, if_false]
    split_ifs <;> simp
  · intro s hs
    simp [get_system_memory, hmem, get_swap_info, hs]

/-- C7 (witness): on a kernel whose swap read alone fails the sample succeeds
with a zeroed swap snapshot and the unchanged memory snapshot, and the run
renders it. -/
theorem swap_failure_is_not_fatal_witness :
    (get_system_memory host_no_swap).1 = 0 ∧
    (get_system_memory host_no_swap).2.swap = { total := 0, used := 0, free := 0 } ∧
    (get_system_memory host_no_swap).2.mem = (get_system_memory host_ok).2.mem ∧
    (main_loop init_options world_no_swap 1 0).take 2 =
      [Event.sample 1 0,
       Event.render 1
         { mem := (get_memory_info host_no_swap).2,
           swap := { total := 0, used := 0, free := 0 },
           page_size := host_no_swap.page_size }] :=
  have h := swap_failure_is_not_fatal host_no_swap (by decide)
  ⟨h.1, (h.2.2.1 rfl).1, (h.2.1 host_ok.swapusage).2.symm,
    (h.2.2.1 rfl).2 init_options world_no_swap 0 0 rfl⟩

/-! ## binary64 rounding -/

theorem round_half_even_intCast (z : ℤ) : round_half_even (z : ℚ) = z := by
  simp [round_half_even]

theorem floor_le_round_half_even (m : ℚ) : ⌊m⌋ ≤ round_half_even m := by
  simp only [round_half_even]
  split_ifs <;> omega

theorem round_half_even_le_floor_add_one (m : ℚ) : round_half_even m ≤ ⌊m⌋ + 1 := by
  simp only [round_half_even]
  split_ifs <;> omega

theorem round_half_even_mono {m₁ m₂ : ℚ} (h : m₁ ≤ m₂) :
    round_half_even m₁ ≤ round_half_even m₂ := by
  have hf : ⌊m₁⌋ ≤ ⌊m₂⌋ := Int.floor_mono h
  rcases lt_or_eq_of_le hf with hlt | heq
  · calc round_half_even m₁ ≤ ⌊m₁⌋ + 1 := round_half_even_le_floor_add_one m₁
      _ ≤ ⌊m₂⌋ := hlt
      _ ≤ round_half_even m₂ := floor_le_round_half_even m₂
  · simp only [round_half_even, heq]
    split_ifs <;> first | omega | linarith

theorem ulp_pos (q : ℚ) : 0 < ulp q := by
  unfold ulp
  positivity

theorem binade_spec {q : ℚ} (hq : q ≠ 0) :
    (2 : ℚ) ^ binade q ≤ |q| ∧ |q| < (2 : ℚ) ^ (binade q + 1) := by
  have h : 0 < |q| := abs_pos.mpr hq
  constructor
  · have := Int.zpow_log_le_self (b := 2) (by norm_num) h
    simpa [binade] using this
  · have := Int.lt_zpow_succ_log_self (b := 2) (by norm_num) |q|
    simpa [binade] using this

theorem binade_eq {q : ℚ} {e : ℤ} (h1 : (2 : ℚ) ^ e ≤ |q|) (h2 : |q| < (2 : ℚ) ^ (e + 1)) :
    binade q = e := by
  have hpos : 0 < |q| := lt_of_lt_of_le (by positivity) h1
  have a : e ≤ Int.log 2 |q| :=
    (Int.zpow_le_iff_le_log (b := 2) (by norm_num) hpos).mp (by simpa using h1)
  have b : Int.log 2 |q| < e + 1 :=
    (Int.lt_zpow_iff_log_lt (b := 2) (by norm_num) hpos).mp (by simpa using h2)
  unfold binade
  omega

theorem fl_zero : fl 0 = 0 := by
  simp [fl, round_half_even]

theorem binade_mul_two_zpow {q : ℚ} (hq : q ≠ 0) (k : ℤ) :
    binade (q * (2 : ℚ) ^ k) = binade q + k := by
  obtain ⟨h1, h2⟩ := binade_spec hq
  have hk : (0 : ℚ) < (2 : ℚ) ^ k := by positivity
  apply binade_eq
  · rw [abs_mul, abs_of_pos hk, zpow_add₀ (by norm_num)]
    exact mul_le_mul_of_nonneg_right h1 hk.le
  · rw [abs_mul, abs_of_pos hk, show binade q + k + 1 = (binade q + 1) + k by ring,
      zpow_add₀ (by norm_num)]
    exact mul_lt_mul_of_pos_right h2 hk

theorem fl_mul_two_zpow (q : ℚ) (k : ℤ) : fl (q * (2 : ℚ) ^ k) = fl q * (2 : ℚ) ^ k := by
  by_cases hq : q = 0
  · simp [hq, fl_zero]
  · have hu : ulp (q * (2 : ℚ) ^ k) = ulp q * (2 : ℚ) ^ k := by
      unfold ulp
      rw [binade_mul_two_zpow hq, ← zpow_add₀ (by norm_num)]
      congr 1
      ring
    have hk : (2 : ℚ) ^ k ≠ 0 := by positivity
    have hd : q * (2 : ℚ) ^ k / (ulp q * (2 : ℚ) ^ k) = q / ulp q := by
      rw [mul_div_mul_right _ _ hk]
    unfold fl
    rw [hu, hd]
    ring


/-- The significand of a rounded value has at most 53 bits. -/
theorem round_significand_bounds {q : ℚ} (hq : q ≠ 0) :
    -(2 : ℤ) ^ 53 ≤ round_half_even (q / ulp q) ∧ round_half_even (q / ulp q) ≤ (2 : ℤ) ^ 53 := by
  obtain ⟨_, h2⟩ := binade_spec hq
  have hu := ulp_pos q
  have habs : |q / ulp q| < (2 : ℚ) ^ (53 : ℕ) := by
    rw [abs_div, abs_of_pos hu, div_lt_iff₀ hu]
    have e : (2 : ℚ) ^ (53 : ℕ) * ulp q = (2 : ℚ) ^ (binade q + 1) := by
      unfold ulp
      rw [← zpow_natCast, ← zpow_add₀ (by norm_num)]
      congr 1
      push_cast
      ring
    rw [e]
    exact h2
  obtain ⟨hlo, hhi⟩ := abs_lt.mp habs
  constructor
  · have : (-(2 : ℤ) ^ 53) ≤ ⌊q / ulp q⌋ := by
      apply Int.le_floor.mpr
      push_cast
      exact hlo.le
    exact le_trans this (floor_le_round_half_even _)
  · have : ⌊q / ulp q⌋ < (2 : ℤ) ^ 53 := by
      apply Int.floor_lt.mpr
      push_cast
      exact hhi
    have := round_half_even_le_floor_add_one (q / ulp q)
    omega

/-- A number with a significand below `2 ^ 53` is a binary64 value: rounding
leaves it unchanged. -/
theorem fl_of_significand (m e : ℤ) (hm : |m| < (2 : ℤ) ^ 53) :
    fl ((m : ℚ) * (2 : ℚ) ^ e) = (m : ℚ) * (2 : ℚ) ^ e := by
  by_cases hm0 : m = 0
  · simp [hm0, fl_zero]
  have h2e : (0 : ℚ) < (2 : ℚ) ^ e := by positivity
  have hq : (m : ℚ) * (2 : ℚ) ^ e ≠ 0 := by
    have : (m : ℚ) ≠ 0 := by exact_mod_cast hm0
    positivity
  obtain ⟨h1, _⟩ := binade_spec hq
  set b := binade ((m : ℚ) * (2 : ℚ) ^ e) with hb
  have hlt : (2 : ℚ) ^ b < (2 : ℚ) ^ (53 + e) := by
    refine lt_of_le_of_lt h1 ?_
    rw [abs_mul, abs_of_pos h2e, zpow_add₀ (by norm_num)]
    apply mul_lt_mul_of_pos_right _ h2e
    have h : ((|m| : ℤ) : ℚ) < (((2 : ℤ) ^ 53 : ℤ) : ℚ) := by exact_mod_cast hm
    rw [Int.cast_abs] at h
    norm_num at h ⊢
    exact h
  have hbe : b < 53 + e := (zpow_lt_zpow_iff_right₀ (by norm_num : (1 : ℚ) < 2)).mp hlt
  obtain ⟨n, hn⟩ : ∃ n : ℕ, (n : ℤ) = e - (b - 52) := ⟨(e - (b - 52)).toNat, by omega⟩
  have hdiv : (m : ℚ) * (2 : ℚ) ^ e / ulp ((m : ℚ) * (2 : ℚ) ^ e) = ((m * 2 ^ n : ℤ) : ℚ) := by
    have hu : ulp ((m : ℚ) * (2 : ℚ) ^ e) = (2 : ℚ) ^ (b - 52) := rfl
    rw [hu, mul_div_assoc, ← zpow_sub₀ (by norm_num), ← hn]
    push_cast
    rw [zpow_natCast]
  have hu : ulp ((m : ℚ) * (2 : ℚ) ^ e) = (2 : ℚ) ^ (b - 52) := rfl
  unfold fl
  rw [hdiv, round_half_even_intCast, hu]
  push_cast
  rw [mul_assoc, ← zpow_natCast, ← zpow_add₀ (by norm_num), hn]
  congr 2
  ring

/-- Rounding is idempotent: a rounded value is a binary64 value. -/
theorem fl_fl (q : ℚ) : fl (fl q) = fl q := by
  by_cases hq : q = 0
  · simp [hq, fl_zero]
  obtain ⟨hlo, hhi⟩ := round_significand_bounds hq
  have hu : ulp q = (2 : ℚ) ^ (binade q - 52) := rfl
  have e : fl q = (round_half_even (q / ulp q) : ℚ) * (2 : ℚ) ^ (binade q - 52) := rfl
  rcases lt_or_eq_of_le hhi with h1 | h1
  · rcases lt_or_eq_of_le hlo with h2 | h2
    · rw [e]
      exact fl_of_significand _ _ (abs_lt.mpr ⟨h2, h1⟩)
    · have e2 : fl q = ((-1 : ℤ) : ℚ) * (2 : ℚ) ^ (binade q + 1) := by
        rw [e, ← h2, show binade q + 1 = 53 + (binade q - 52) by ring, zpow_add₀ (by norm_num)]
        norm_num
      rw [e2]
      exact fl_of_significand _ _ (by decide)
  · have e2 : fl q = ((1 : ℤ) : ℚ) * (2 : ℚ) ^ (binade q + 1) := by
      rw [e, h1, show binade q + 1 = 53 + (binade q - 52) by ring, zpow_add₀ (by norm_num)]
      norm_num
    rw [e2]
    exact fl_of_significand _ _ (by decide)

/-- Every natural number up to `2 ^ 53` is a binary64 value. -/
theorem fl_natCast (n : ℕ) (hn : n ≤ 2 ^ 53) : fl (n : ℚ) = n := by
  rcases lt_or_eq_of_le hn with h | h
  · have := fl_of_significand (n : ℤ) 0 (by rw [abs_of_nonneg (by positivity)]; exact_mod_cast h)
    simpa using this
  · have := fl_of_significand 1 53 (by decide)
    rw [h]
    norm_num at this ⊢
    exact this


theorem fl_nonneg {q : ℚ} (hq : 0 ≤ q) : 0 ≤ fl q := by
  have hu := ulp_pos q
  have h0 : (0 : ℤ) ≤ ⌊q / ulp q⌋ := Int.floor_nonneg.mpr (div_nonneg hq hu.le)
  have h1 : (0 : ℤ) ≤ round_half_even (q / ulp q) := le_trans h0 (floor_le_round_half_even _)
  unfold fl
  exact mul_nonneg (by exact_mod_cast h1) hu.le

/-- A rounded value stays in the closed binade of its argument (upper end). -/
theorem fl_le_two_zpow {q : ℚ} (hq : q ≠ 0) : fl q ≤ (2 : ℚ) ^ (binade q + 1) := by
  obtain ⟨_, hhi⟩ := round_significand_bounds hq
  have hu := ulp_pos q
  have h : (round_half_even (q / ulp q) : ℚ) ≤ (2 : ℚ) ^ (53 : ℤ) := by
    have : (round_half_even (q / ulp q) : ℚ) ≤ (((2 : ℤ) ^ 53 : ℤ) : ℚ) := by exact_mod_cast hhi
    norm_num at this ⊢
    exact this
  calc fl q = (round_half_even (q / ulp q) : ℚ) * ulp q := rfl
    _ ≤ (2 : ℚ) ^ (53 : ℤ) * ulp q := mul_le_mul_of_nonneg_right h hu.le
    _ = (2 : ℚ) ^ (binade q + 1) := by
      unfold ulp
      rw [← zpow_add₀ (by norm_num)]
      congr 1
      ring

/-- A rounded positive value stays in the closed binade of its argument (lower end). -/
theorem two_zpow_le_fl {q : ℚ} (hq : 0 < q) : (2 : ℚ) ^ binade q ≤ fl q := by
  obtain ⟨h1, _⟩ := binade_spec hq.ne.symm
  rw [abs_of_pos hq] at h1
  have hu := ulp_pos q
  have hd0 : (2 : ℚ) ^ (52 : ℤ) ≤ q / ulp q := by
    rw [le_div_iff₀ hu]
    refine le_trans (le_of_eq ?_) h1
    unfold ulp
    rw [← zpow_add₀ (by norm_num)]
    congr 1
    ring
  have hd : (((2 : ℤ) ^ 52 : ℤ) : ℚ) ≤ q / ulp q := by
    norm_num at hd0 ⊢
    exact hd0
  have hf : (2 : ℤ) ^ 52 ≤ round_half_even (q / ulp q) :=
    le_trans (Int.le_floor.mpr hd) (floor_le_round_half_even _)
  have h : (2 : ℚ) ^ (52 : ℤ) ≤ (round_half_even (q / ulp q) : ℚ) := by
    have : (((2 : ℤ) ^ 52 : ℤ) : ℚ) ≤ (round_half_even (q / ulp q) : ℚ) := by exact_mod_cast hf
    norm_num at this ⊢
    exact this
  calc (2 : ℚ) ^ binade q = (2 : ℚ) ^ (52 : ℤ) * ulp q := by
        unfold ulp
        rw [← zpow_add₀ (by norm_num)]
        congr 1
        ring
    _ ≤ (round_half_even (q / ulp q) : ℚ) * ulp q := mul_le_mul_of_nonneg_right h hu.le
    _ = fl q := rfl

/-- Rounding is monotone on the non-negative rationals. -/
theorem fl_mono {x y : ℚ} (hx : 0 ≤ x) (hxy : x ≤ y) : fl x ≤ fl y := by
  rcases eq_or_lt_of_le hx with h0 | hpos
  · rw [← h0, fl_zero]
    exact fl_nonneg (le_trans hx hxy)
  have hy : 0 < y := lt_of_lt_of_le hpos hxy
  have hb : binade x ≤ binade y := by
    unfold binade
    rw [abs_of_pos hpos, abs_of_pos hy]
    exact Int.log_mono_right hpos hxy
  rcases lt_or_eq_of_le hb with hlt | heq
  · calc fl x ≤ (2 : ℚ) ^ (binade x + 1) := fl_le_two_zpow hpos.ne.symm
      _ ≤ (2 : ℚ) ^ binade y := zpow_le_zpow_right₀ (by norm_num) (by omega)
      _ ≤ fl y := two_zpow_le_fl hy
  · have hu : ulp x = ulp y := by unfold ulp; rw [heq]
    have hupos := ulp_pos y
    have hd : x / ulp y ≤ y / ulp y := div_le_div_of_nonneg_right hxy hupos.le
    have hr := round_half_even_mono hd
    unfold fl
    rw [hu]
    exact mul_le_mul_of_nonneg_right (by exact_mod_cast hr) hupos.le

theorem fl_one : fl 1 = 1 := by
  have := fl_natCast 1 (by norm_num)
  simpa using this

theorem fl_le_one {q : ℚ} (h0 : 0 ≤ q) (h1 : q ≤ 1) : fl q ≤ 1 := by
  have := fl_mono h0 h1
  rwa [fl_one] at this

/-- Above `2 ^ 53` the conversion to `double` rounds: `2 ^ 53 + 1` becomes
`2 ^ 53` (a tie, resolved to the even significand). -/
theorem double_of_u64_rounds : double_of_u64 (2 ^ 53 + 1) = 2 ^ 53 := by
  have hb : binade (((2 ^ 53 + 1 : ℕ) : ℚ)) = 53 := by
    apply binade_eq <;> norm_num
  have hu : ulp (((2 ^ 53 + 1 : ℕ) : ℚ)) = 2 := by
    unfold ulp
    rw [hb]
    norm_num
  have hf : ⌊(((2 ^ 53 + 1 : ℕ) : ℚ)) / 2⌋ = 2 ^ 52 := by
    rw [Int.floor_eq_iff]
    norm_num
  have hr : round_half_even ((((2 ^ 53 + 1 : ℕ) : ℚ)) / 2) = 2 ^ 52 := by
    simp only [round_half_even, hf]
    norm_num
  simp only [double_of_u64, fl, hu, hr]
  norm_num

/-! ## Memory pressure -/

/-- Rounding to the nearest integer moves a number by at most one half. -/
theorem round_half_even_error (m : ℚ) : |(round_half_even m : ℚ) - m| ≤ 1 / 2 := by
  have h1 : (⌊m⌋ : ℚ) ≤ m := Int.floor_le m
  have h2 : m < (⌊m⌋ : ℚ) + 1 := Int.lt_floor_add_one m
  simp only [round_half_even]
  split_ifs with ha hb hc
  · rw [abs_le]; constructor <;> linarith
  · rw [abs_le]; push_cast; constructor <;> linarith
  · rw [abs_le]; constructor <;> linarith
  · rw [abs_le]; push_cast; constructor <;> linarith

/-- Rounding to binary64 has a relative error of at most `2 ^ (-53)`. -/
theorem fl_rel_error (q : ℚ) : |fl q - q| ≤ |q| / 2 ^ 53 := by
  by_cases hq : q = 0
  · simp [hq, fl_zero]
  obtain ⟨h1, _⟩ := binade_spec hq
  have hu := ulp_pos q
  have he := round_half_even_error (q / ulp q)
  have e1 : fl q - q = ((round_half_even (q / ulp q) : ℚ) - q / ulp q) * ulp q := by
    unfold fl
    field_simp
  have e2 : ulp q / 2 ≤ |q| / 2 ^ 53 := by
    have : ulp q * 2 ^ 52 = (2 : ℚ) ^ binade q := by
      unfold ulp
      rw [show ((2 : ℚ) ^ 52) = (2 : ℚ) ^ (52 : ℤ) by norm_num, ← zpow_add₀ (by norm_num)]
      congr 1
      ring
    rw [div_le_div_iff₀ (by norm_num) (by positivity)]
    nlinarith [h1, this]
  rw [e1, abs_mul, abs_of_pos hu]
  calc |(round_half_even (q / ulp q) : ℚ) - q / ulp q| * ulp q ≤ 1 / 2 * ulp q :=
        mul_le_mul_of_nonneg_right he hu.le
    _ = ulp q / 2 := by ring
    _ ≤ |q| / 2 ^ 53 := e2

/-- For a non-negative number the rounded value lies within the factors
`1 - 2 ^ (-53)` and `1 + 2 ^ (-53)`. -/
theorem fl_bounds {q : ℚ} (hq : 0 ≤ q) :
    q * (1 - 1 / 2 ^ 53) ≤ fl q ∧ fl q ≤ q * (1 + 1 / 2 ^ 53) := by
  have h := fl_rel_error q
  rw [abs_of_nonneg hq, abs_le] at h
  constructor <;> linarith [h.1, h.2]

/-- The quotient of two converted integers, computed in binary64, lies within
the factors `1 - 4 * 2 ^ (-53)` and `1 + 4 * 2 ^ (-53)` of the exact quotient. -/
theorem double_quotient_bounds (u t : ℕ) (ht : t ≠ 0) :
    ((u : ℚ) / t) * (1 - 4 / 2 ^ 53) ≤ double_div (double_of_u64 u) (double_of_u64 t) ∧
    double_div (double_of_u64 u) (double_of_u64 t) ≤ ((u : ℚ) / t) * (1 + 4 / 2 ^ 53) := by
  have hu0 : (0 : ℚ) ≤ u := Nat.cast_nonneg u
  have ht0 : (0 : ℚ) < t := by exact_mod_cast Nat.pos_of_ne_zero ht
  obtain ⟨hU1, hU2⟩ := fl_bounds hu0
  obtain ⟨hT1, hT2⟩ := fl_bounds ht0.le
  have hU0 : 0 ≤ fl (u : ℚ) := fl_nonneg hu0
  have hTlo : (0 : ℚ) < (t : ℚ) * (1 - 1 / 2 ^ 53) := mul_pos ht0 (by norm_num)
  have hTpos : 0 < fl (t : ℚ) := lt_of_lt_of_le hTlo hT1
  have hx0 : 0 ≤ fl (u : ℚ) / fl (t : ℚ) := div_nonneg hU0 hTpos.le
  obtain ⟨hR1, hR2⟩ := fl_bounds hx0
  have hxhi : fl (u : ℚ) / fl (t : ℚ) ≤ ((u : ℚ) * (1 + 1 / 2 ^ 53)) / ((t : ℚ) * (1 - 1 / 2 ^ 53)) :=
    div_le_div₀ (mul_nonneg hu0 (by norm_num)) hU2 hTlo hT1
  have hxlo : ((u : ℚ) * (1 - 1 / 2 ^ 53)) / ((t : ℚ) * (1 + 1 / 2 ^ 53)) ≤ fl (u : ℚ) / fl (t : ℚ) :=
    div_le_div₀ hU0 hU1 hTpos hT2
  have hq0 : (0 : ℚ) ≤ (u : ℚ) / t := div_nonneg hu0 ht0.le
  have ehi : ((u : ℚ) * (1 + 1 / 2 ^ 53)) / ((t : ℚ) * (1 - 1 / 2 ^ 53)) =
      ((u : ℚ) / t) * ((1 + 1 / 2 ^ 53) / (1 - 1 / 2 ^ 53)) := by
    field_simp
  have elo : ((u : ℚ) * (1 - 1 / 2 ^ 53)) / ((t : ℚ) * (1 + 1 / 2 ^ 53)) =
      ((u : ℚ) / t) * ((1 - 1 / 2 ^ 53) / (1 + 1 / 2 ^ 53)) := by
    field_simp
  rw [ehi] at hxhi
  rw [elo] at hxlo
  simp only [double_div, double_of_u64]
  constructor
  · calc ((u : ℚ) / t) * (1 - 4 / 2 ^ 53)
        ≤ ((u : ℚ) / t) * (((1 - 1 / 2 ^ 53) / (1 + 1 / 2 ^ 53)) * (1 - 1 / 2 ^ 53)) :=
          mul_le_mul_of_nonneg_left (by norm_num) hq0
      _ = (((u : ℚ) / t) * ((1 - 1 / 2 ^ 53) / (1 + 1 / 2 ^ 53))) * (1 - 1 / 2 ^ 53) := by ring
      _ ≤ (fl (u : ℚ) / fl (t : ℚ)) * (1 - 1 / 2 ^ 53) :=
          mul_le_mul_of_nonneg_right hxlo (by norm_num)
      _ ≤ fl (fl (u : ℚ) / fl (t : ℚ)) := hR1
  · calc fl (fl (u : ℚ) / fl (t : ℚ)) ≤ (fl (u : ℚ) / fl (t : ℚ)) * (1 + 1 / 2 ^ 53) := hR2
      _ ≤ (((u : ℚ) / t) * ((1 + 1 / 2 ^ 53) / (1 - 1 / 2 ^ 53))) * (1 + 1 / 2 ^ 53) :=
          mul_le_mul_of_nonneg_right hxhi (by norm_num)
      _ = ((u : ℚ) / t) * (((1 + 1 / 2 ^ 53) / (1 - 1 / 2 ^ 53)) * (1 + 1 / 2 ^ 53)) := by ring
      _ ≤ ((u : ℚ) / t) * (1 + 4 / 2 ^ 53) :=
          mul_le_mul_of_nonneg_left (by norm_num) hq0

/-- The constant `0.5` is a binary64 value. -/
theorem double_lit_half : double_lit (1 / 2) = 1 / 2 := by
  have := fl_of_significand 1 (-1) (by decide)
  simpa [double_lit, zpow_neg] using this

/-- Halving a binary64 value is exact. -/
theorem double_mul_half (x : ℚ) : double_mul (fl x) (double_lit (1 / 2)) = fl x / 2 := by
  have e : fl x * (1 / 2) = fl x * (2 : ℚ) ^ (-1 : ℤ) := by
    rw [zpow_neg, zpow_one]
    ring
  rw [double_lit_half, double_mul, e, fl_mul_two_zpow, fl_fl, zpow_neg, zpow_one]
  ring

/-- The value of `calculate_memory_pressure`, each binary64 operation written
out as the rounding of its exact result. -/
theorem pressure_value (mem : mem_info_t) (ht : mem.total ≠ 0) :
    calculate_memory_pressure (some mem) =
      clamp (fl (fl (fl (mem.used : ℚ) / fl (mem.total : ℚ)) +
        fl (fl (mem.compressed : ℚ) / fl (mem.total : ℚ)) / 2)) 0 1 := by
  have hm : double_mul (double_div (double_of_u64 mem.compressed) (double_of_u64 mem.total))
      (double_lit (1 / 2)) = fl (fl (mem.compressed : ℚ) / fl (mem.total : ℚ)) / 2 := by
    simp only [double_div, double_of_u64]
    exact double_mul_half _
  simp only [calculate_memory_pressure, ht, if_false, hm, clamp]
  simp only [double_add, double_div, double_of_u64]
  generalize fl (fl (fl (mem.used : ℚ) / fl (mem.total : ℚ)) +
    fl (fl (mem.compressed : ℚ) / fl (mem.total : ℚ)) / 2) = x
  by_cases h1 : x > 1
  · have h2 : min x 1 = 1 := min_eq_right h1.le
    have h5 : ¬ ((1 : ℚ) < 0) := by norm_num
    simp [h1, h2, h5]
  · have h2 : min x 1 = x := min_eq_left (not_lt.mp h1)
    by_cases h3 : x < 0
    · have h4 : max 0 x = 0 := max_eq_left h3.le
      simp [h1, h2, h3, h4]
    · have h4 : max 0 x = x := max_eq_right (not_lt.mp h3)
      simp only [h1, h2, h3, h4, if_false]

/-- The binary64 evaluation of the pressure formula is within `2 ^ (-50)` of its
exact value. -/
theorem pressure_accuracy (u c t : ℕ) (ht : t ≠ 0) :
    |clamp (fl (fl (fl (u : ℚ) / fl (t : ℚ)) + fl (fl (c : ℚ) / fl (t : ℚ)) / 2)) 0 1 -
      clamp ((u : ℚ) / t + 1 / 2 * ((c : ℚ) / t)) 0 1| ≤ 1 / 2 ^ 50 := by
  obtain ⟨ha1, ha2⟩ := double_quotient_bounds u t ht
  obtain ⟨hb1, hb2⟩ := double_quotient_bounds c t ht
  simp only [double_div, double_of_u64] at ha1 ha2 hb1 hb2
  have ht0 : (0 : ℚ) < t := by exact_mod_cast Nat.pos_of_ne_zero ht
  have hA0 : (0 : ℚ) ≤ (u : ℚ) / t := div_nonneg (Nat.cast_nonneg u) ht0.le
  have hB0 : (0 : ℚ) ≤ (c : ℚ) / t := div_nonneg (Nat.cast_nonneg c) ht0.le
  set A : ℚ := (u : ℚ) / t with hA
  set B : ℚ := (c : ℚ) / t with hB
  set ur : ℚ := fl (fl (u : ℚ) / fl (t : ℚ)) with hur
  set cr : ℚ := fl (fl (c : ℚ) / fl (t : ℚ)) with hcr
  have hur0 : 0 ≤ ur := le_trans (mul_nonneg hA0 (by norm_num)) ha1
  have hcr0 : 0 ≤ cr := le_trans (mul_nonneg hB0 (by norm_num)) hb1
  have hs0 : 0 ≤ ur + cr / 2 := by linarith
  obtain ⟨hp1, hp2⟩ := fl_bounds hs0
  set p : ℚ := fl (ur + cr / 2) with hp
  have hE0 : 0 ≤ A + 1 / 2 * B := by linarith
  set E : ℚ := A + 1 / 2 * B with hE
  have hslo : E * (1 - 4 / 2 ^ 53) ≤ ur + cr / 2 := by
    rw [hE]; linarith
  have hshi : ur + cr / 2 ≤ E * (1 + 4 / 2 ^ 53) := by
    rw [hE]; linarith
  have hplo : E * (1 - 6 / 2 ^ 53) ≤ p := by
    calc E * (1 - 6 / 2 ^ 53) ≤ E * ((1 - 4 / 2 ^ 53) * (1 - 1 / 2 ^ 53)) :=
          mul_le_mul_of_nonneg_left (by norm_num) hE0
      _ = (E * (1 - 4 / 2 ^ 53)) * (1 - 1 / 2 ^ 53) := by ring
      _ ≤ (ur + cr / 2) * (1 - 1 / 2 ^ 53) := mul_le_mul_of_nonneg_right hslo (by norm_num)
      _ ≤ p := hp1
  have hphi : p ≤ E * (1 + 6 / 2 ^ 53) := by
    calc p ≤ (ur + cr / 2) * (1 + 1 / 2 ^ 53) := hp2
      _ ≤ (E * (1 + 4 / 2 ^ 53)) * (1 + 1 / 2 ^ 53) :=
          mul_le_mul_of_nonneg_right hshi (by norm_num)
      _ = E * ((1 + 4 / 2 ^ 53) * (1 + 1 / 2 ^ 53)) := by ring
      _ ≤ E * (1 + 6 / 2 ^ 53) := mul_le_mul_of_nonneg_left (by norm_num) hE0
  have hp0 : 0 ≤ p := fl_nonneg hs0
  have hcp : clamp p 0 1 = min p 1 := by
    simp only [clamp]
    exact max_eq_right (le_min hp0 (by norm_num))
  have hcE : clamp E 0 1 = min E 1 := by
    simp only [clamp]
    exact max_eq_right (le_min hE0 (by norm_num))
  rw [hcp, hcE, abs_le]
  have hk : (6 : ℚ) / 2 ^ 53 ≤ 1 / 2 ^ 50 := by norm_num
  by_cases hE1 : E ≤ 1
  · have hd : E * (6 / 2 ^ 53) ≤ 6 / 2 ^ 53 := mul_le_of_le_one_left (by norm_num) hE1
    rw [min_eq_left hE1]
    by_cases hp1' : p ≤ 1
    · rw [min_eq_left hp1']
      constructor <;> linarith
    · rw [min_eq_right (le_of_not_le hp1')]
      have hp1'' : 1 < p := not_le.mp hp1'
      constructor <;> linarith
  · have hE1' : 1 < E := not_le.mp hE1
    have hd : 1 * (1 - 6 / 2 ^ 53) ≤ E * (1 - 6 / 2 ^ 53) :=
      mul_le_mul_of_nonneg_right hE1'.le (by norm_num)
    rw [min_eq_right (le_of_not_le hE1)]
    by_cases hp1' : p ≤ 1
    · rw [min_eq_left hp1']
      constructor <;> linarith
    · rw [min_eq_right (le_of_not_le hp1')]
      constructor <;> norm_num

/-- The rounding of a number whose binade is known. -/
theorem fl_of_binade (q : ℚ) (e : ℤ) (h1 : (2 : ℚ) ^ e ≤ q) (h2 : q < (2 : ℚ) ^ (e + 1)) :
    fl q = (round_half_even (q / (2 : ℚ) ^ (e - 52)) : ℚ) * (2 : ℚ) ^ (e - 52) := by
  have hq : 0 ≤ q := le_trans (by positivity) h1
  have hb : binade q = e := binade_eq (by rwa [abs_of_nonneg hq]) (by rwa [abs_of_nonneg hq])
  simp only [fl, ulp, hb]

/-- The rounding of a number whose integer part is known. -/
theorem round_half_even_of_floor (m : ℚ) (f : ℤ) (h1 : (f : ℚ) ≤ m) (h2 : m < (f : ℚ) + 1) :
    round_half_even m =
      if m - f < 1 / 2 then f
      else if 1 / 2 < m - f then f + 1
      else if f % 2 = 0 then f else f + 1 := by
  have hf : ⌊m⌋ = f := Int.floor_eq_iff.mpr ⟨h1, h2⟩
  simp only [round_half_even, hf]

/-- The binary64 value nearest to one third. -/
theorem fl_one_third : fl (1 / 3) = 6004799503160661 / 18014398509481984 := by
  rw [fl_of_binade (1 / 3) (-2) (by norm_num) (by norm_num)]
  rw [round_half_even_of_floor _ 6004799503160661 (by norm_num) (by norm_num)]
  norm_num

/-- The binary64 value nearest to one thousandth. -/
theorem fl_one_thousandth : fl (1 / 1000) = 1152921504606847 / 1152921504606846976 := by
  rw [fl_of_binade (1 / 1000) (-10) (by norm_num) (by norm_num)]
  rw [round_half_even_of_floor _ 4611686018427387 (by norm_num) (by norm_num)]
  norm_num

/-- C8 (amended): for every memory snapshot `calculate_memory_pressure` returns a
value between 0 and 1, exactly 0 when `total` is 0, and otherwise the formula
`clamp(used/total + 0.5 * compressed/total, 0, 1)` evaluated in binary64
arithmetic: every conversion, quotient and sum is rounded to the nearest
binary64 value (the halving is exact).  That value is within `2 ^ (-50)` of the
exact value of the formula. -/
theorem memory_pressure_range (mem : mem_info_t) :
    0 ≤ calculate_memory_pressure (some mem) ∧ calculate_memory_pressure (some mem) ≤ 1 ∧
    (mem.total = 0 → calculate_memory_pressure (some mem) = 0) ∧
    (mem.total ≠ 0 →
      calculate_memory_pressure (some mem) =
        clamp (fl (fl (fl (mem.used : ℚ) / fl (mem.total : ℚ)) +
          fl (fl (mem.compressed : ℚ) / fl (mem.total : ℚ)) / 2)) 0 1 ∧
      |calculate_memory_pressure (some mem) -
        clamp ((mem.used : ℚ) / mem.total + 1 / 2 * ((mem.compressed : ℚ) / mem.total)) 0 1| ≤
          1 / 2 ^ 50) := by
  by_cases ht : mem.total = 0
  · have h0 : calculate_memory_pressure (some mem) = 0 := by
      simp [calculate_memory_pressure, ht]
    rw [h0]
    exact ⟨le_refl 0, by norm_num, fun _ => rfl, fun h => absurd ht h⟩
  · have hv := pressure_value mem ht
    refine ⟨?_, ?_, fun h => absurd h ht, fun _ => ⟨hv, ?_⟩⟩
    · rw [hv]
      exact le_max_left _ _
    · rw [hv]
      exact max_le (by norm_num) (min_le_right _ _)
    · rw [hv]
      exact pressure_accuracy mem.used mem.compressed mem.total ht

/-- C8 (witness): used = 1, compressed = 1, total = 4: the pressure is
`1/4 + 0.5 * 1/4 = 3/8`, here without any rounding. -/
theorem memory_pressure_range_witness :
    calculate_memory_pressure (some mem_three_eighths) = 3 / 8 ∧
    clamp (((1 : ℕ) : ℚ) / (4 : ℕ) + 1 / 2 * (((1 : ℕ) : ℚ) / (4 : ℕ))) 0 1 = 3 / 8 := by
  have h := (memory_pressure_range mem_three_eighths).2.2.2 (by decide)
  have e : calculate_memory_pressure (some mem_three_eighths) =
      clamp (fl (fl (fl ((1 : ℕ) : ℚ) / fl ((4 : ℕ) : ℚ)) +
        fl (fl ((1 : ℕ) : ℚ) / fl ((4 : ℕ) : ℚ)) / 2)) 0 1 := h.1
  have h1 : fl ((1 : ℕ) : ℚ) = 1 := by simpa using fl_natCast 1 (by norm_num)
  have h4 : fl ((4 : ℕ) : ℚ) = 4 := by simpa using fl_natCast 4 (by norm_num)
  have hq : fl ((1 : ℚ) / 4) = 1 / 4 := by
    have := fl_of_significand 1 (-2) (by decide)
    norm_num at this ⊢
    exact this
  have hs : fl ((1 : ℚ) / 4 + 1 / 4 / 2) = 3 / 8 := by
    have := fl_of_significand 3 (-3) (by decide)
    norm_num at this ⊢
    exact this
  constructor
  · rw [e, h1, h4, hq, hs]
    simp only [clamp]
    norm_num
  · simp only [clamp]
    norm_num

/-- C8 (counterexample): used = 1, compressed = 0, total = 3: the exact value of
the formula is 1/3, and `calculate_memory_pressure` returns the binary64 value
next to it, 6004799503160661 / 2^54. -/
theorem memory_pressure_is_rounded :
    mem_third.total ≠ 0 ∧
    clamp ((mem_third.used : ℚ) / mem_third.total +
      1 / 2 * ((mem_third.compressed : ℚ) / mem_third.total)) 0 1 = 1 / 3 ∧
    calculate_memory_pressure (some mem_third) = 6004799503160661 / 18014398509481984 ∧
    calculate_memory_pressure (some mem_third) ≠
      clamp ((mem_third.used : ℚ) / mem_third.total +
        1 / 2 * ((mem_third.compressed : ℚ) / mem_third.total)) 0 1 := by
  have e : calculate_memory_pressure (some mem_third) =
      clamp (fl (fl (fl ((1 : ℕ) : ℚ) / fl ((3 : ℕ) : ℚ)) +
        fl (fl ((0 : ℕ) : ℚ) / fl ((3 : ℕ) : ℚ)) / 2)) 0 1 :=
    pressure_value mem_third (by decide)
  have h1 : fl ((1 : ℕ) : ℚ) = 1 := by simpa using fl_natCast 1 (by norm_num)
  have h3 : fl ((3 : ℕ) : ℚ) = 3 := by simpa using fl_natCast 3 (by norm_num)
  have h0 : fl ((0 : ℕ) : ℚ) = 0 := by simpa using fl_zero
  have hp : calculate_memory_pressure (some mem_third) =
      6004799503160661 / 18014398509481984 := by
    rw [e, h1, h3, h0, zero_div, fl_zero, zero_div, add_zero, fl_fl, fl_one_third]
    simp only [clamp]
    norm_num
  have hx : clamp ((mem_third.used : ℚ) / mem_third.total +
      1 / 2 * ((mem_third.compressed : ℚ) / mem_third.total)) 0 1 = 1 / 3 := by
    simp only [mem_third, mem_zero, clamp]
    norm_num
  refine ⟨by decide, hx, hp, ?_⟩
  rw [hp, hx]
  norm_num

/-- With nothing compressed the pressure is the used ratio limited to 1. -/
theorem pressure_of_uncompressed (mem : mem_info_t) (hc : mem.compressed = 0)
    (ht : mem.total ≠ 0) :
    calculate_memory_pressure (some mem) =
      min (double_div (double_of_u64 mem.used) (double_of_u64 mem.total)) 1 := by
  have hnn : 0 ≤ double_div (double_of_u64 mem.used) (double_of_u64 mem.total) :=
    fl_nonneg (div_nonneg (fl_nonneg (Nat.cast_nonneg _)) (fl_nonneg (Nat.cast_nonneg _)))
  have hz : double_div (double_of_u64 0) (double_of_u64 mem.total) = 0 := by
    simp [double_div, double_of_u64, fl_zero]
  have hadd : double_add (double_div (double_of_u64 mem.used) (double_of_u64 mem.total))
      (double_mul 0 (double_lit (1 / 2))) =
      double_div (double_of_u64 mem.used) (double_of_u64 mem.total) := by
    simp only [double_add, double_mul, zero_mul, fl_zero, add_zero, double_div, fl_fl]
  simp only [calculate_memory_pressure, ht, if_false, hc, hz, hadd]
  by_cases h1 : double_div (double_of_u64 mem.used) (double_of_u64 mem.total) > 1
  · simp [h1, min_eq_right h1.le]
  · simp only [h1, if_false, min_eq_left (not_lt.mp h1)]
    simp [not_lt.mpr hnn]

/-- C9 (amended): for every memory snapshot with `compressed = 0` and a non-zero
`total`, `calculate_memory_pressure` returns the used ratio
`(double)used / (double)total` limited to at most 1; whenever `used ≤ total` that
is the used ratio alone. -/
theorem memory_pressure_without_compression (mem : mem_info_t) (hc : mem.compressed = 0)
    (ht : mem.total ≠ 0) :
    calculate_memory_pressure (some mem) =
      min (double_div (double_of_u64 mem.used) (double_of_u64 mem.total)) 1 ∧
    (mem.used ≤ mem.total →
      calculate_memory_pressure (some mem) =
        double_div (double_of_u64 mem.used) (double_of_u64 mem.total)) := by
  refine ⟨pressure_of_uncompressed mem hc ht, ?_⟩
  intro hle
  rw [pressure_of_uncompressed mem hc ht]
  apply min_eq_left
  have hu : (0 : ℚ) ≤ fl (mem.used : ℚ) := fl_nonneg (Nat.cast_nonneg _)
  have hut : fl (mem.used : ℚ) ≤ fl (mem.total : ℚ) :=
    fl_mono (Nat.cast_nonneg _) (by exact_mod_cast hle)
  have h1t : (1 : ℚ) ≤ fl (mem.total : ℚ) := by
    have := fl_mono (x := 1) (y := (mem.total : ℚ)) (by norm_num)
      (by exact_mod_cast Nat.one_le_iff_ne_zero.mpr ht)
    rwa [fl_one] at this
  have hpos : (0 : ℚ) < fl (mem.total : ℚ) := lt_of_lt_of_le (by norm_num) h1t
  exact fl_le_one (div_nonneg hu hpos.le) ((div_le_one hpos).mpr hut)

/-- C9 (witness): used = 1, total = 4, nothing compressed: the pressure is the
used ratio. -/
theorem memory_pressure_without_compression_witness :
    calculate_memory_pressure (some mem_quarter) =
      double_div (double_of_u64 mem_quarter.used) (double_of_u64 mem_quarter.total) :=
  (memory_pressure_without_compression mem_quarter rfl (by decide)).2 (by decide)

/-- C9 (counterexample): used = 2, total = 1, compressed = 0: the used ratio is 2
and `calculate_memory_pressure` returns 1. -/
theorem memory_pressure_clamps_used_ratio :
    mem_overcommitted.compressed = 0 ∧ mem_overcommitted.total ≠ 0 ∧
    double_div (double_of_u64 mem_overcommitted.used) (double_of_u64 mem_overcommitted.total) = 2 ∧
    (mem_overcommitted.used : ℚ) / (mem_overcommitted.total : ℚ) = 2 ∧
    calculate_memory_pressure (some mem_overcommitted) = 1 ∧
    calculate_memory_pressure (some mem_overcommitted) ≠
      double_div (double_of_u64 mem_overcommitted.used)
        (double_of_u64 mem_overcommitted.total) := by
  have h1 : fl 1 = 1 := fl_one
  have h2 : fl 2 = 2 := by simpa using fl_natCast 2 (by norm_num)
  have hr : double_div (double_of_u64 mem_overcommitted.used)
      (double_of_u64 mem_overcommitted.total) = 2 := by
    simp [double_div, double_of_u64, mem_overcommitted, mem_zero, h1, h2]
  have hp : calculate_memory_pressure (some mem_overcommitted) = 1 := by
    rw [pressure_of_uncompressed mem_overcommitted rfl (by decide), hr]
    norm_num
  refine ⟨rfl, by decide, hr, by simp [mem_overcommitted, mem_zero], hp, ?_⟩
  rw [hp, hr]
  norm_num


/-! ## Unit conversion -/

/-- Dividing a binary64 value by a power of two is exact. -/
theorem double_div_two_pow (x : ℚ) (k : ℕ) :
    double_div (fl x) ((2 : ℚ) ^ k) = fl x / (2 : ℚ) ^ k := by
  have e : fl x / (2 : ℚ) ^ k = fl x * (2 : ℚ) ^ (-(k : ℤ)) := by
    rw [zpow_neg, zpow_natCast, div_eq_mul_inv]
  rw [double_div, e, fl_mul_two_zpow, fl_fl]

/-- The value of `convert_unit` for each unit: an exact quotient for the binary
units, a rounded quotient for the decimal units, the converted byte count for
`UNIT_BYTES` and `UNIT_HUMAN`. -/
theorem convert_unit_values (b : Nat) :
    convert_unit b unit_type_t.UNIT_KIBI = double_of_u64 b / 1024 ∧
    convert_unit b unit_type_t.UNIT_MEBI = double_of_u64 b / 1024 ^ 2 ∧
    convert_unit b unit_type_t.UNIT_GIBI = double_of_u64 b / 1024 ^ 3 ∧
    convert_unit b unit_type_t.UNIT_TEBI = double_of_u64 b / 1024 ^ 4 ∧
    convert_unit b unit_type_t.UNIT_KILO = fl (double_of_u64 b / 1000) ∧
    convert_unit b unit_type_t.UNIT_MEGA = fl (double_of_u64 b / 1000 ^ 2) ∧
    convert_unit b unit_type_t.UNIT_GIGA = fl (double_of_u64 b / 1000 ^ 3) ∧
    convert_unit b unit_type_t.UNIT_TERA = fl (double_of_u64 b / 1000 ^ 4) ∧
    convert_unit b unit_type_t.UNIT_BYTES = double_of_u64 b ∧
    convert_unit b unit_type_t.UNIT_HUMAN = double_of_u64 b := by
  have hkb : double_of_u64 BYTES_PER_KB = 1024 := by
    simpa [double_of_u64, BYTES_PER_KB] using fl_natCast 1024 (by norm_num)
  have hmb : double_of_u64 BYTES_PER_MB = 1024 ^ 2 := by
    have e : BYTES_PER_MB = 1048576 := by decide
    rw [e]
    simpa [double_of_u64] using fl_natCast 1048576 (by norm_num)
  have hgb : double_of_u64 BYTES_PER_GB = 1024 ^ 3 := by
    have e : BYTES_PER_GB = 1073741824 := by decide
    rw [e]
    simpa [double_of_u64] using fl_natCast 1073741824 (by norm_num)
  have htb : double_of_u64 (u64 (BYTES_PER_GB * 1024)) = 1024 ^ 4 := by
    have e : u64 (BYTES_PER_GB * 1024) = 1099511627776 := by decide
    rw [e]
    simpa [double_of_u64] using fl_natCast 1099511627776 (by norm_num)
  have hk : double_lit 1000 = 1000 := by
    simpa [double_lit] using fl_natCast 1000 (by norm_num)
  have hm : double_lit 1000000 = 1000 ^ 2 := by
    simpa [double_lit] using fl_natCast 1000000 (by norm_num)
  have hg : double_lit 1000000000 = 1000 ^ 3 := by
    simpa [double_lit] using fl_natCast 1000000000 (by norm_num)
  have ht : double_lit 1000000000000 = 1000 ^ 4 := by
    simpa [double_lit] using fl_natCast 1000000000000 (by norm_num)
  have p1 : ((1024 : ℚ)) = (2 : ℚ) ^ 10 := by norm_num
  have p2 : ((1024 : ℚ)) ^ 2 = (2 : ℚ) ^ 20 := by norm_num
  have p3 : ((1024 : ℚ)) ^ 3 = (2 : ℚ) ^ 30 := by norm_num
  have p4 : ((1024 : ℚ)) ^ 4 = (2 : ℚ) ^ 40 := by norm_num
  refine ⟨?_, ?_, ?_, ?_, ?_, ?_, ?_, ?_, rfl, rfl⟩
  · simp only [convert_unit, hkb, p1]
    exact double_div_two_pow _ 10
  · simp only [convert_unit, hmb, p2]
    exact double_div_two_pow _ 20
  · simp only [convert_unit, hgb, p3]
    exact double_div_two_pow _ 30
  · simp only [convert_unit, htb, p4]
    exact double_div_two_pow _ 40
  · simp only [convert_unit, hk, double_div]
  · simp only [convert_unit, hm, double_div]
  · simp only [convert_unit, hg, double_div]
  · simp only [convert_unit, ht, double_div]

/-- C10 (amended): for every byte count `b`, `convert_unit` works on `(double)b`,
which is `b` rounded to binary64: `b` itself for every `b` up to `2 ^ 53`, and
within a relative error of `2 ^ (-53)` of `b` in general.  For `UNIT_KIBI`,
`UNIT_MEBI`, `UNIT_GIBI`, `UNIT_TEBI` the result is `(double)b` divided by 1024,
1024^2, 1024^3, 1024^4 without any further rounding, so it is `b/1024` exactly
for `b ≤ 2 ^ 53`; for `UNIT_KILO`, `UNIT_MEGA`, `UNIT_GIGA`, `UNIT_TERA` it is
`(double)b` divided by 1000, 1000^2, 1000^3, 1000^4 and rounded to binary64; for
`UNIT_BYTES` and `UNIT_HUMAN` it is `(double)b`.  Rounding to binary64 changes a
number by at most the fraction `2 ^ (-53)` of it. -/
theorem convert_unit_divides_by_factor (b : Nat) :
    (convert_unit b unit_type_t.UNIT_KIBI = double_of_u64 b / 1024 ∧
      convert_unit b unit_type_t.UNIT_MEBI = double_of_u64 b / 1024 ^ 2 ∧
      convert_unit b unit_type_t.UNIT_GIBI = double_of_u64 b / 1024 ^ 3 ∧
      convert_unit b unit_type_t.UNIT_TEBI = double_of_u64 b / 1024 ^ 4 ∧
      convert_unit b unit_type_t.UNIT_KILO = fl (double_of_u64 b / 1000) ∧
      convert_unit b unit_type_t.UNIT_MEGA = fl (double_of_u64 b / 1000 ^ 2) ∧
      convert_unit b unit_type_t.UNIT_GIGA = fl (double_of_u64 b / 1000 ^ 3) ∧
      convert_unit b unit_type_t.UNIT_TERA = fl (double_of_u64 b / 1000 ^ 4) ∧
      convert_unit b unit_type_t.UNIT_BYTES = double_of_u64 b ∧
      convert_unit b unit_type_t.UNIT_HUMAN = double_of_u64 b) ∧
    double_of_u64 b = fl (b : ℚ) ∧
    (b ≤ 2 ^ 53 → double_of_u64 b = (b : ℚ)) ∧
    (b ≤ 2 ^ 53 → convert_unit b unit_type_t.UNIT_KIBI = (b : ℚ) / 1024) ∧
    |double_of_u64 b - (b : ℚ)| ≤ (b : ℚ) / 2 ^ 53 ∧
    (∀ q : ℚ, |fl q - q| ≤ |q| / 2 ^ 53) := by
  refine ⟨convert_unit_values b, rfl, fun hb => fl_natCast b hb, ?_, ?_, fl_rel_error⟩
  · intro hb
    rw [(convert_unit_values b).1, double_of_u64, fl_natCast b hb]
  · have h := fl_rel_error (b : ℚ)
    have hb0 : |(b : ℚ)| = (b : ℚ) := abs_of_nonneg (Nat.cast_nonneg b)
    rw [hb0] at h
    exact h

/-- C10 (witness): 1536 bytes are exactly 3/2 KiB and, in `UNIT_BYTES`, 1536;
1500 bytes are exactly 3/2 kB. -/
theorem convert_unit_divides_by_factor_witness :
    convert_unit 1536 unit_type_t.UNIT_KIBI = 3 / 2 ∧
    convert_unit 1536 unit_type_t.UNIT_BYTES = 1536 ∧
    convert_unit 1500 unit_type_t.UNIT_KILO = 3 / 2 := by
  have h := convert_unit_divides_by_factor 1536
  have g := convert_unit_divides_by_factor 1500
  have hb : double_of_u64 1536 = ((1536 : ℕ) : ℚ) := h.2.2.1 (by norm_num)
  have gb : double_of_u64 1500 = ((1500 : ℕ) : ℚ) := g.2.2.1 (by norm_num)
  have h32 : fl ((3 : ℚ) / 2) = 3 / 2 := by
    have := fl_of_significand 3 (-1) (by decide)
    norm_num at this ⊢
    exact this
  refine ⟨?_, ?_, ?_⟩
  · rw [h.2.2.2.1 (by norm_num)]
    norm_num
  · rw [h.1.2.2.2.2.2.2.2.2.1, hb]
    norm_num
  · rw [g.1.2.2.2.2.1, gb, show ((1500 : ℕ) : ℚ) / 1000 = 3 / 2 by norm_num, h32]

/-- C10 (counterexample): at `b = 2 ^ 53 + 1` the conversion to `double` drops the
last bit, so `UNIT_KIBI` gives `2 ^ 43` and `UNIT_BYTES` gives `2 ^ 53`, not
`b/1024` and `b`; at `b = 1` `UNIT_KILO` gives the binary64 value next to 1/1000. -/
theorem convert_unit_is_rounded :
    convert_unit (2 ^ 53 + 1) unit_type_t.UNIT_KIBI = 2 ^ 43 ∧
    convert_unit (2 ^ 53 + 1) unit_type_t.UNIT_KIBI ≠ ((2 ^ 53 + 1 : ℕ) : ℚ) / 1024 ∧
    convert_unit (2 ^ 53 + 1) unit_type_t.UNIT_BYTES = 2 ^ 53 ∧
    convert_unit (2 ^ 53 + 1) unit_type_t.UNIT_BYTES ≠ ((2 ^ 53 + 1 : ℕ) : ℚ) ∧
    convert_unit 1 unit_type_t.UNIT_KILO = 1152921504606847 / 1152921504606846976 ∧
    convert_unit 1 unit_type_t.UNIT_KILO ≠ ((1 : ℕ) : ℚ) / 1000 := by
  have hk : convert_unit (2 ^ 53 + 1) unit_type_t.UNIT_KIBI = 2 ^ 43 := by
    rw [(convert_unit_values (2 ^ 53 + 1)).1, double_of_u64_rounds]
    norm_num
  have hb : convert_unit (2 ^ 53 + 1) unit_type_t.UNIT_BYTES = 2 ^ 53 := by
    rw [(convert_unit_values (2 ^ 53 + 1)).2.2.2.2.2.2.2.2.1, double_of_u64_rounds]
  have h1 : double_of_u64 1 = 1 := by
    simpa [double_of_u64] using fl_natCast 1 (by norm_num)
  have hd : convert_unit 1 unit_type_t.UNIT_KILO =
      1152921504606847 / 1152921504606846976 := by
    rw [(convert_unit_values 1).2.2.2.2.1, h1, fl_one_thousandth]
  refine ⟨hk, ?_, hb, ?_, hd, ?_⟩
  · rw [hk]
    norm_num
  · rw [hb]
    norm_num
  · rw [hd]
    norm_num

/-! ## Presentation -/

theorem putchar_loop_eq_replicate (c : Char) (n : Nat) :
    putchar_loop c n = List.replicate n c := by
  induction n with
  | zero => rfl
  | succ n ih => simp [putchar_loop, ih, List.replicate_succ]

/-- The length of the header row in each of the four layouts. -/
theorem header_row_length (opts : options_t) :
    (header_row opts).length =
      if opts.wide ≠ 0 then (if opts.unit = unit_type_t.UNIT_HUMAN then 103 else 111)
      else (if opts.unit = unit_type_t.UNIT_HUMAN then 79 else 85) := by
  by_cases hw : opts.wide = 0 <;> by_cases hu : opts.unit = unit_type_t.UNIT_HUMAN <;>
    simp only [header_row, hw, hu, ne_eq, not_true_eq_false, not_false_eq_true, if_true,
      if_false] <;>
    rfl

/-- C13: for every display configuration `print_separator` writes a line of
dashes followed by a newline, 67 dashes for compact and human, 79 for compact
and any other unit, 97 for wide and human, 115 for wide and any other unit. -/
theorem print_separator_line (opts : options_t) :
    (opts.wide = 0 ∧ opts.unit = unit_type_t.UNIT_HUMAN →
      print_separator opts = List.replicate 67 '-' ++ ['\n']) ∧
    (opts.wide = 0 ∧ opts.unit ≠ unit_type_t.UNIT_HUMAN →
      print_separator opts = List.replicate 79 '-' ++ ['\n']) ∧
    (opts.wide ≠ 0 ∧ opts.unit = unit_type_t.UNIT_HUMAN →
      print_separator opts = List.replicate 97 '-' ++ ['\n']) ∧
    (opts.wide ≠ 0 ∧ opts.unit ≠ unit_type_t.UNIT_HUMAN →
      print_separator opts = List.replicate 115 '-' ++ ['\n']) := by
  refine ⟨?_, ?_, ?_, ?_⟩ <;>
    · rintro ⟨hw, hu⟩
      simp [print_separator, separator_width, putchar_loop_eq_replicate, hw, hu]

/-- C13 (witness): the four layouts at concrete options. -/
theorem print_separator_line_witness :
    print_separator { init_options with unit := unit_type_t.UNIT_HUMAN } =
      List.replicate 67 '-' ++ ['\n'] ∧
    print_separator init_options = List.replicate 79 '-' ++ ['\n'] ∧
    print_separator { init_options with unit := unit_type_t.UNIT_HUMAN, wide := 1 } =
      List.replicate 97 '-' ++ ['\n'] ∧
    print_separator { init_options with wide := 1 } = List.replicate 115 '-' ++ ['\n'] :=
  ⟨(print_separator_line { init_options with unit := unit_type_t.UNIT_HUMAN }).1
      ⟨rfl, rfl⟩,
   (print_separator_line init_options).2.1 ⟨rfl, by decide⟩,
   (print_separator_line { init_options with unit := unit_type_t.UNIT_HUMAN, wide := 1 }).2.2.1
      ⟨by decide, rfl⟩,
   (print_separator_line { init_options with wide := 1 }).2.2.2 ⟨by decide, by decide⟩⟩

/-- C15 (the code at the failing input): in every configuration the number of
dashes written by `print_separator` differs from the length of the header row:
67 against 79 (compact, human), 79 against 85 (compact, other units), 97
against 103 (wide, human), 115 against 111 (wide, other units).  With the
default options the separator has 79 dashes and the header row 85 characters. -/
theorem separator_is_not_full_width (opts : options_t) :
    (print_separator opts).count '-' = separator_width opts ∧
    (print_separator opts).count '-' ≠ (header_row opts).length ∧
    separator_width opts =
      (if opts.wide ≠ 0 then (if opts.unit = unit_type_t.UNIT_HUMAN then 97 else 115)
       else (if opts.unit = unit_type_t.UNIT_HUMAN then 67 else 79)) ∧
    (header_row opts).length =
      (if opts.wide ≠ 0 then (if opts.unit = unit_type_t.UNIT_HUMAN then 103 else 111)
       else (if opts.unit = unit_type_t.UNIT_HUMAN then 79 else 85)) ∧
    (print_separator init_options).count '-' = 79 ∧ (header_row init_options).length = 85 := by
  have hc : (print_separator opts).count '-' = separator_width opts := by
    simp [print_separator, putchar_loop_eq_replicate, List.count_replicate_self]
  have hc0 : (print_separator init_options).count '-' = 79 := by
    simp [print_separator, putchar_loop_eq_replicate, List.count_replicate_self]
    decide
  refine ⟨hc, ?_, rfl, header_row_length opts, hc0, by rw [header_row_length]; decide⟩
  rw [hc, header_row_length]
  by_cases hw : opts.wide = 0 <;> by_cases hu : opts.unit = unit_type_t.UNIT_HUMAN <;>
    simp [separator_width, hw, hu]

theorem pad_left_length (w : Nat) (s : List Char) (h : s.length ≤ w) :
    (pad_left w s).length = w := by
  simp [pad_left]
  omega

theorem pad_right_length (w : Nat) (s : List Char) (h : s.length ≤ w) :
    (pad_right w s).length = w := by
  simp [pad_right]
  omega

/-- A cell is a space and the value text right-aligned in the column width. -/
theorem print_value_eq (bytes : Nat) (opts : options_t) :
    print_value bytes opts = ' ' :: pad_left (column_width opts) (value_text bytes opts) := by
  by_cases hu : opts.unit = unit_type_t.UNIT_HUMAN
  · simp only [print_value, value_text, column_width, hu, if_true]
    cases format_human bytes 32 <;> rfl
  · by_cases hb : opts.unit = unit_type_t.UNIT_BYTES <;>
      simp [print_value, value_text, column_width, hu, hb]

theorem print_value_length (bytes : Nat) (opts : options_t)
    (h : (value_text bytes opts).length ≤ column_width opts) :
    (print_value bytes opts).length = column_width opts + 1 := by
  rw [print_value_eq, List.length_cons, pad_left_length _ _ h]

theorem blank_cells_eq (opts : options_t) (n : Nat) :
    blank_cells opts n = List.replicate (n * (column_width opts + 1)) ' ' := by
  induction n with
  | zero => simp [blank_cells]
  | succ n ih =>
    rw [blank_cells, ih, Nat.succ_mul, Nat.add_comm (n * _), List.replicate_add]
    congr 1
    by_cases hu : opts.unit = unit_type_t.UNIT_HUMAN <;>
      simp [hu, column_width, pad_left, List.replicate_succ]

/-- The header row has 7 characters for the label and one cell per column. -/
theorem header_row_length_formula (opts : options_t) :
    (header_row opts).length = 7 + column_count opts * (column_width opts + 1) := by
  rw [header_row_length]
  by_cases hw : opts.wide = 0 <;> by_cases hu : opts.unit = unit_type_t.UNIT_HUMAN <;>
    simp [hw, hu, column_count, column_width]

/-- C14: for every display configuration and every snapshot whose displayed values
each fit the column width (11 characters in human mode, 12 otherwise), the header
row, the memory row and the swap row that `print_memory_info` writes have the
same length `7 + n * (w + 1)`, with `w` the column width and `n = 8` columns in
wide mode, `6` in compact mode; the swap row is its label, the three cells
total, used, free and then 5 (wide) or 3 (compact) blank cells of `w + 1` spaces. -/
theorem rows_are_aligned (sys_mem : system_memory_t) (opts : options_t)
    (hfit : ∀ x ∈ shown_values sys_mem opts, (value_text x opts).length ≤ column_width opts) :
    print_memory_info sys_mem opts =
      header_row opts ++ ['\n'] ++ mem_row sys_mem.mem opts ++ ['\n'] ++
        swap_row sys_mem.swap opts ++ ['\n'] ++
        (if opts.totals ≠ 0 then print_totals sys_mem.mem sys_mem.swap opts else []) ∧
    column_width opts = (if opts.unit = unit_type_t.UNIT_HUMAN then 11 else 12) ∧
    column_count opts = (if opts.wide ≠ 0 then 8 else 6) ∧
    (header_row opts).length = 7 + column_count opts * (column_width opts + 1) ∧
    (mem_row sys_mem.mem opts).length = 7 + column_count opts * (column_width opts + 1) ∧
    (swap_row sys_mem.swap opts).length = 7 + column_count opts * (column_width opts + 1) ∧
    swap_row sys_mem.swap opts =
      pad_right 7 ['S', 'w', 'a', 'p', ':'] ++ print_value sys_mem.swap.total opts ++
        print_value sys_mem.swap.used opts ++ print_value sys_mem.swap.free opts ++
        List.replicate ((if opts.wide ≠ 0 then 5 else 3) * (column_width opts + 1)) ' ' := by
  have hswap : swap_row sys_mem.swap opts =
      pad_right 7 ['S', 'w', 'a', 'p', ':'] ++ print_value sys_mem.swap.total opts ++
        print_value sys_mem.swap.used opts ++ print_value sys_mem.swap.free opts ++
        List.replicate ((if opts.wide ≠ 0 then 5 else 3) * (column_width opts + 1)) ' ' := by
    by_cases hw : opts.wide = 0 <;> simp [swap_row, hw, blank_cells_eq]
  have hlen : ∀ x ∈ shown_values sys_mem opts,
      (print_value x opts).length = column_width opts + 1 :=
    fun x hx => print_value_length x opts (hfit x hx)
  refine ⟨?_, rfl, rfl, header_row_length_formula opts, ?_, ?_, hswap⟩
  · by_cases hu : opts.unit = unit_type_t.UNIT_HUMAN <;>
      simp [print_memory_info, print_header, print_human, print_numeric, hu]
  · by_cases hw : opts.wide = 0
    · have h1 := hlen sys_mem.mem.total (by simp [shown_values])
      have h2 := hlen sys_mem.mem.used (by simp [shown_values])
      have h3 := hlen sys_mem.mem.free (by simp [shown_values])
      have h4 := hlen sys_mem.mem.compressed (by simp [shown_values, hw])
      have h5 := hlen (u64 (sys_mem.mem.cached + sys_mem.mem.inactive))
        (by simp [shown_values, hw])
      have h6 := hlen sys_mem.mem.available (by simp [shown_values])
      simp only [mem_row, hw, ne_eq, not_true_eq_false, if_false, List.length_append, h1, h2,
        h3, h4, h5, h6, pad_right_length 7 ['M', 'e', 'm', ':'] (by decide), column_count]
      ring
    · have h1 := hlen sys_mem.mem.total (by simp [shown_values])
      have h2 := hlen sys_mem.mem.used (by simp [shown_values])
      have h3 := hlen sys_mem.mem.free (by simp [shown_values])
      have h4 := hlen sys_mem.mem.active (by simp [shown_values, hw])
      have h5 := hlen sys_mem.mem.inactive (by simp [shown_values, hw])
      have h6 := hlen sys_mem.mem.wired (by simp [shown_values, hw])
      have h7 := hlen sys_mem.mem.compressed (by simp [shown_values, hw])
      have h8 := hlen sys_mem.mem.available (by simp [shown_values])
      simp only [mem_row, hw, ne_eq, not_false_eq_true, if_true, List.length_append, h1, h2,
        h3, h4, h5, h6, h7, h8, pad_right_length 7 ['M', 'e', 'm', ':'] (by decide),
        column_count]
      ring
  · have h1 := hlen sys_mem.swap.total (by simp [shown_values])
    have h2 := hlen sys_mem.swap.used (by simp [shown_values])
    have h3 := hlen sys_mem.swap.free (by simp [shown_values])
    rw [hswap]
    by_cases hw : opts.wide = 0 <;>
      simp only [hw, ne_eq, not_true_eq_false, not_false_eq_true, if_true, if_false,
        List.length_append, List.length_replicate, h1, h2, h3,
        pad_right_length 7 ['S', 'w', 'a', 'p', ':'] (by decide), column_count] <;>
      ring

/-- C14 (witness): the snapshot of `host_ok` in bytes, wide layout, has three rows
of 111 characters; a snapshot of small values in human mode, compact layout, has
three rows of 79 characters. -/
theorem rows_are_aligned_witness :
    ((header_row { init_options with unit := unit_type_t.UNIT_BYTES, wide := 1 }).length =
        7 + 8 * (12 + 1) ∧
      (mem_row (get_system_memory host_ok).2.mem
        { init_options with unit := unit_type_t.UNIT_BYTES, wide := 1 }).length =
        7 + 8 * (12 + 1) ∧
      (swap_row (get_system_memory host_ok).2.swap
        { init_options with unit := unit_type_t.UNIT_BYTES, wide := 1 }).length =
        7 + 8 * (12 + 1)) ∧
    ((header_row { init_options with unit := unit_type_t.UNIT_HUMAN }).length =
        7 + 6 * (11 + 1) ∧
      (mem_row sys_tiny.mem { init_options with unit := unit_type_t.UNIT_HUMAN }).length =
        7 + 6 * (11 + 1) ∧
      (swap_row sys_tiny.swap { init_options with unit := unit_type_t.UNIT_HUMAN }).length =
        7 + 6 * (11 + 1)) :=
  have h := rows_are_aligned (get_system_memory host_ok).2
    { init_options with unit := unit_type_t.UNIT_BYTES, wide := 1 } (by decide)
  have g := rows_are_aligned sys_tiny { init_options with unit := unit_type_t.UNIT_HUMAN }
    (by decide)
  ⟨⟨h.2.2.2.1, h.2.2.2.2.1, h.2.2.2.2.2.1⟩, ⟨g.2.2.2.1, g.2.2.2.2.1, g.2.2.2.2.2.1⟩⟩

/-! ## Decimal digits -/

theorem toDigitsCore_length_le (fuel : Nat) :
    ∀ (n : Nat) (ds : List Char) (k : Nat), 1 ≤ k → n < 10 ^ k →
      (Nat.toDigitsCore 10 fuel n ds).length ≤ ds.length + k := by
  induction fuel with
  | zero =>
    intro n ds k hk hn
    simp [Nat.toDigitsCore]
  | succ f ih =>
    intro n ds k hk hn
    simp only [Nat.toDigitsCore]
    split_ifs with h0
    · simp
      omega
    · have hk2 : 2 ≤ k := by
        by_contra hlt
        have hk1 : k = 1 := by omega
        subst hk1
        exact h0 (Nat.div_eq_of_lt (by simpa using hn))
      have hdiv : n / 10 < 10 ^ (k - 1) := by
        apply Nat.div_lt_of_lt_mul
        have : 10 ^ k = 10 * 10 ^ (k - 1) := by
          rw [← Nat.pow_succ']
          congr 1
          omega
        omega
      have := ih (n / 10) (Nat.digitChar (n % 10) :: ds) (k - 1) (by omega) hdiv
      simp only [List.length_cons] at this
      omega

/-- A number below `10 ^ k` has at most `k` decimal digits. -/
theorem toDigits_length_le (n k : Nat) (hk : 1 ≤ k) (hn : n < 10 ^ k) :
    (Nat.toDigits 10 n).length ≤ k := by
  have := toDigitsCore_length_le (n + 1) n [] k hk hn
  simpa [Nat.toDigits] using this

theorem digitChar_isDigit (d : Nat) (hd : d < 10) : (Nat.digitChar d).isDigit = true := by
  interval_cases d <;> decide

theorem toDigitsCore_isDigit (fuel : Nat) :
    ∀ (n : Nat) (ds : List Char), (∀ c ∈ ds, c.isDigit = true) →
      ∀ c ∈ Nat.toDigitsCore 10 fuel n ds, c.isDigit = true := by
  induction fuel with
  | zero =>
    intro n ds hds c hc
    exact hds c (by simpa [Nat.toDigitsCore] using hc)
  | succ f ih =>
    intro n ds hds c hc
    have hd : (Nat.digitChar (n % 10)).isDigit = true :=
      digitChar_isDigit _ (Nat.mod_lt _ (by norm_num))
    have hds2 : ∀ c ∈ Nat.digitChar (n % 10) :: ds, c.isDigit = true := by
      intro c hc
      rcases List.mem_cons.mp hc with h | h
      · rw [h]; exact hd
      · exact hds c h
    simp only [Nat.toDigitsCore] at hc
    split_ifs at hc with h0
    · exact hds2 c hc
    · exact ih (n / 10) _ hds2 c hc

/-- The decimal digits of a number are digit characters. -/
theorem toDigits_isDigit (n : Nat) : ∀ c ∈ Nat.toDigits 10 n, c.isDigit = true := by
  intro c hc
  exact toDigitsCore_isDigit (n + 1) n [] (by simp) c hc

/-! ## Human-readable format -/

theorem fl_two_pow (m : ℕ) : fl ((2 : ℚ) ^ m) = (2 : ℚ) ^ m := by
  have := fl_of_significand 1 (m : ℤ) (by decide)
  simpa using this

/-- The text of `%.1f` for a value of at most `2 ^ 34` has at most 13 characters. -/
theorem printf_f1_length_le (v : ℚ) (hv : v ≤ (2 : ℚ) ^ 34) : (printf_f1 v).length ≤ 13 := by
  have h1 : round_half_even (v * 10) ≤ round_half_even (((171798691840 : ℤ) : ℚ)) :=
    round_half_even_mono (by push_cast; norm_num at hv ⊢; linarith)
  rw [round_half_even_intCast] at h1
  have h2 : (round_half_even (v * 10)).toNat / 10 < 10 ^ 11 := by omega
  have h3 := toDigits_length_le _ 11 (by norm_num) h2
  simp only [printf_f1, List.length_append, List.length_cons, List.length_nil]
  omega

/-- The value that `format_human` prints with a binary prefix: `(double)b`
divided by `2 ^ k`, where the division is exact. -/
theorem human_quotient_le (b k : ℕ) (hb : b ≤ 2 ^ (k + 34)) :
    double_of_u64 b / (2 : ℚ) ^ k ≤ (2 : ℚ) ^ 34 := by
  have h1 : fl (b : ℚ) ≤ fl ((2 : ℚ) ^ (k + 34)) :=
    fl_mono (Nat.cast_nonneg _) (by exact_mod_cast hb)
  rw [fl_two_pow] at h1
  rw [double_of_u64, div_le_iff₀ (by positivity)]
  calc fl (b : ℚ) ≤ (2 : ℚ) ^ (k + 34) := h1
    _ = (2 : ℚ) ^ 34 * (2 : ℚ) ^ k := by rw [pow_add]; ring

theorem snprintf_fits (bufsize : Nat) (text : List Char) (h : text.length < bufsize) :
    snprintf bufsize text = text := by
  rw [snprintf, List.take_of_length_le (by omega)]

theorem double_of_BYTES_PER_KB : double_of_u64 BYTES_PER_KB = (2 : ℚ) ^ 10 := by
  have := fl_natCast 1024 (by norm_num)
  rw [double_of_u64, show BYTES_PER_KB = 1024 from rfl, this]
  norm_num

theorem double_of_BYTES_PER_MB : double_of_u64 BYTES_PER_MB = (2 : ℚ) ^ 20 := by
  have := fl_natCast 1048576 (by norm_num)
  rw [double_of_u64, show BYTES_PER_MB = 1048576 by decide, this]
  norm_num

theorem double_of_BYTES_PER_GB : double_of_u64 BYTES_PER_GB = (2 : ℚ) ^ 30 := by
  have := fl_natCast 1073741824 (by norm_num)
  rw [double_of_u64, show BYTES_PER_GB = 1073741824 by decide, this]
  norm_num

/-- The text that `format_human` produces when the buffer does not truncate it. -/
theorem format_human_text (b bufsize : Nat) (hb : b < 2 ^ 64) (hbuf : 16 ≤ bufsize) :
    format_human b bufsize = some
      (if 2 ^ 30 ≤ b then printf_f1 (double_of_u64 b / (2 : ℚ) ^ 30) ++ ['G', 'i']
       else if 2 ^ 20 ≤ b then printf_f1 (double_of_u64 b / (2 : ℚ) ^ 20) ++ ['M', 'i']
       else if 2 ^ 10 ≤ b then printf_f1 (double_of_u64 b / (2 : ℚ) ^ 10) ++ ['K', 'i']
       else printf_llu b ++ ['B']) := by
  have h0 : bufsize ≠ 0 := by omega
  have eG : (b ≥ BYTES_PER_GB) = (2 ^ 30 ≤ b) := by
    rw [show BYTES_PER_GB = 2 ^ 30 by decide]
  have eM : (b ≥ BYTES_PER_MB) = (2 ^ 20 ≤ b) := by
    rw [show BYTES_PER_MB = 2 ^ 20 by decide]
  have eK : (b ≥ BYTES_PER_KB) = (2 ^ 10 ≤ b) := by
    rw [show BYTES_PER_KB = 2 ^ 10 by decide]
  have qG : double_div (double_of_u64 b) (double_of_u64 BYTES_PER_GB) =
      double_of_u64 b / (2 : ℚ) ^ 30 := by
    rw [double_of_BYTES_PER_GB]; exact double_div_two_pow _ 30
  have qM : double_div (double_of_u64 b) (double_of_u64 BYTES_PER_MB) =
      double_of_u64 b / (2 : ℚ) ^ 20 := by
    rw [double_of_BYTES_PER_MB]; exact double_div_two_pow _ 20
  have qK : double_div (double_of_u64 b) (double_of_u64 BYTES_PER_KB) =
      double_of_u64 b / (2 : ℚ) ^ 10 := by
    rw [double_of_BYTES_PER_KB]; exact double_div_two_pow _ 10
  by_cases hG : 2 ^ 30 ≤ b
  · have hlen := printf_f1_length_le _ (human_quotient_le b 30 (by omega))
    have hfit : (printf_f1 (double_of_u64 b / (2 : ℚ) ^ 30) ++ ['G', 'i']).length < bufsize := by
      simp only [List.length_append, List.length_cons, List.length_nil]
      omega
    simp only [format_human, h0, if_false, eG, hG, if_true, qG,
      snprintf_fits _ _ hfit]
  · by_cases hM : 2 ^ 20 ≤ b
    · have hlen := printf_f1_length_le _ (human_quotient_le b 20 (by omega))
      have hfit : (printf_f1 (double_of_u64 b / (2 : ℚ) ^ 20) ++ ['M', 'i']).length < bufsize := by
        simp only [List.length_append, List.length_cons, List.length_nil]
        omega
      simp only [format_human, h0, if_false, eG, eM, hG, hM, if_true, qM,
        snprintf_fits _ _ hfit]
    · by_cases hK : 2 ^ 10 ≤ b
      · have hlen := printf_f1_length_le _ (human_quotient_le b 10 (by omega))
        have hfit : (printf_f1 (double_of_u64 b / (2 : ℚ) ^ 10) ++ ['K', 'i']).length <
            bufsize := by
          simp only [List.length_append, List.length_cons, List.length_nil]
          omega
        simp only [format_human, h0, if_false, eG, eM, eK, hG, hM, hK, if_true, qK,
          snprintf_fits _ _ hfit]
      · have hlen := toDigits_length_le b 4 (by norm_num) (by omega)
        have hfit : (printf_llu b ++ ['B']).length < bufsize := by
          simp only [printf_llu, List.length_append, List.length_cons, List.length_nil]
          omega
        simp only [format_human, h0, if_false, eG, eM, eK, hG, hM, hK,
          snprintf_fits _ _ hfit]

theorem suffix_two_append_two (X : List Char) (a b c d : Char) :
    [a, b] <:+ X ++ [c, d] ↔ a = c ∧ b = d := by
  rw [← List.reverse_prefix]
  simp [List.cons_prefix_cons, and_comm]

theorem not_suffix_two_append_one (X : List Char) (a b c : Char) (h : b ≠ c) :
    ¬ [a, b] <:+ X ++ [c] := by
  rw [← List.reverse_prefix]
  simp [List.cons_prefix_cons, h]

theorem append_two_ne_append_one (X Y : List Char) (a b c : Char) (h : b ≠ c) :
    X ++ [a, b] ≠ Y ++ [c] := by
  intro e
  have := congrArg List.reverse e
  simp at this
  exact h this.1


/-- The conversion `%.1f` at a multiple of one tenth. -/
theorem printf_f1_tenths (n : ℕ) :
    printf_f1 ((n : ℚ) / 10) = Nat.toDigits 10 (n / 10) ++ ['.', Nat.digitChar (n % 10)] := by
  have h : (n : ℚ) / 10 * 10 = ((n : ℤ) : ℚ) := by
    push_cast
    ring
  have hr : round_half_even ((n : ℚ) / 10 * 10) = (n : ℤ) := by
    rw [h]
    exact round_half_even_intCast n
  simp only [printf_f1, hr, Int.toNat_ofNat]

/-- C11 (amended): for every 64-bit byte count `b` and every buffer of at least 16 bytes
(`print_value` passes 32), `format_human` leaves a text that ends in `Gi` iff
`b ≥ 1024^3`, in `Mi` iff `1024^2 ≤ b < 1024^3`, in `Ki` iff `1024 ≤ b < 1024^2`,
and is the decimal digits of `b` followed by `B` iff `b < 1024`.  Before a
binary prefix stands `(double)b` divided by the factor of the unit (the division
is exact, and `(double)b` is `b` itself up to `2^53`, so for `Mi` and `Ki` always),
written by `%.1f`: the integer part, a point and exactly one digit. -/
theorem format_human_selects_unit (b bufsize : Nat) (hb : b < 2 ^ 64) (hbuf : 16 ≤ bufsize) :
    ∃ text : List Char, format_human b bufsize = some text ∧
      (['G', 'i'] <:+ text ↔ 1024 ^ 3 ≤ b) ∧
      (['M', 'i'] <:+ text ↔ 1024 ^ 2 ≤ b ∧ b < 1024 ^ 3) ∧
      (['K', 'i'] <:+ text ↔ 1024 ≤ b ∧ b < 1024 ^ 2) ∧
      (text = printf_llu b ++ ['B'] ↔ b < 1024) ∧
      (1024 ^ 3 ≤ b → text = printf_f1 (double_of_u64 b / 1024 ^ 3) ++ ['G', 'i']) ∧
      (1024 ^ 2 ≤ b ∧ b < 1024 ^ 3 → text = printf_f1 ((b : ℚ) / 1024 ^ 2) ++ ['M', 'i']) ∧
      (1024 ≤ b ∧ b < 1024 ^ 2 → text = printf_f1 ((b : ℚ) / 1024) ++ ['K', 'i']) ∧
      (b ≤ 2 ^ 53 → double_of_u64 b = (b : ℚ)) ∧
      (∀ v : ℚ, ∃ ip d : Nat, d < 10 ∧
        printf_f1 v = Nat.toDigits 10 ip ++ ['.', Nat.digitChar d]) := by
  have e3 : (1024 : ℚ) ^ 3 = (2 : ℚ) ^ 30 := by norm_num
  have e2 : (1024 : ℚ) ^ 2 = (2 : ℚ) ^ 20 := by norm_num
  have e1 : (1024 : ℚ) = (2 : ℚ) ^ 10 := by norm_num
  have hexact : b ≤ 2 ^ 53 → double_of_u64 b = (b : ℚ) := fun h => fl_natCast b h
  have hshape : ∀ v : ℚ, ∃ ip d : Nat, d < 10 ∧
      printf_f1 v = Nat.toDigits 10 ip ++ ['.', Nat.digitChar d] :=
    fun v => ⟨_, _, Nat.mod_lt _ (by norm_num), rfl⟩
  refine ⟨_, format_human_text b bufsize hb hbuf, ?_⟩
  by_cases hG : 2 ^ 30 ≤ b
  · simp only [hG, if_true]
    refine ⟨?_, ?_, ?_, ?_, ?_, ?_, ?_, hexact, hshape⟩
    · simp only [suffix_two_append_two]
      constructor
      · intro _; omega
      · intro _; simp
    · simp only [suffix_two_append_two]
      constructor
      · intro h; exact absurd h.1 (by decide)
      · intro h; omega
    · simp only [suffix_two_append_two]
      constructor
      · intro h; exact absurd h.1 (by decide)
      · intro h; omega
    · constructor
      · intro h; exact absurd h (append_two_ne_append_one _ _ _ _ _ (by decide))
      · intro h; omega
    · intro _; rw [e3]
    · intro h; omega
    · intro h; omega
  · by_cases hM : 2 ^ 20 ≤ b
    · simp only [hG, hM, if_true, if_false]
      have hd : double_of_u64 b = (b : ℚ) := hexact (by omega)
      refine ⟨?_, ?_, ?_, ?_, ?_, ?_, ?_, hexact, hshape⟩
      · simp only [suffix_two_append_two]
        constructor
        · intro h; exact absurd h.1 (by decide)
        · intro h; omega
      · simp only [suffix_two_append_two]
        constructor
        · intro _; omega
        · intro _; simp
      · simp only [suffix_two_append_two]
        constructor
        · intro h; exact absurd h.1 (by decide)
        · intro h; omega
      · constructor
        · intro h; exact absurd h (append_two_ne_append_one _ _ _ _ _ (by decide))
        · intro h; omega
      · intro h; omega
      · intro _; rw [hd, e2]
      · intro h; omega
    · by_cases hK : 2 ^ 10 ≤ b
      · simp only [hG, hM, hK, if_true, if_false]
        have hd : double_of_u64 b = (b : ℚ) := hexact (by omega)
        refine ⟨?_, ?_, ?_, ?_, ?_, ?_, ?_, hexact, hshape⟩
        · simp only [suffix_two_append_two]
          constructor
          · intro h; exact absurd h.1 (by decide)
          · intro h; omega
        · simp only [suffix_two_append_two]
          constructor
          · intro h; exact absurd h.1 (by decide)
          · intro h; omega
        · simp only [suffix_two_append_two]
          constructor
          · intro _; omega
          · intro _; simp
        · constructor
          · intro h; exact absurd h (append_two_ne_append_one _ _ _ _ _ (by decide))
          · intro h; omega
        · intro h; omega
        · intro h; omega
        · intro _; rw [hd, e1]
      · simp only [hG, hM, hK, if_false]
        refine ⟨?_, ?_, ?_, ?_, ?_, ?_, ?_, hexact, hshape⟩
        · constructor
          · intro h; exact absurd h (not_suffix_two_append_one _ _ _ _ (by decide))
          · intro h; omega
        · constructor
          · intro h; exact absurd h (not_suffix_two_append_one _ _ _ _ (by decide))
          · intro h; omega
        · constructor
          · intro h; exact absurd h (not_suffix_two_append_one _ _ _ _ (by decide))
          · intro h; omega
        · constructor
          · intro _; omega
          · intro _; trivial
        · intro h; omega
        · intro h; omega
        · intro h; omega

/-- C11 (witness): 1023 gives 1023B, 1024 gives 1.0Ki, 1536 gives 1.5Ki, 1024*1024
gives 1.0Mi and 1024*1024*1024 gives 1.0Gi. -/
theorem format_human_selects_unit_witness :
    format_human 1023 32 = some ("1023B".toList) ∧
    format_human 1024 32 = some ("1.0Ki".toList) ∧
    format_human 1536 32 = some ("1.5Ki".toList) ∧
    format_human (1024 * 1024) 32 = some ("1.0Mi".toList) ∧
    format_human (1024 * 1024 * 1024) 32 = some ("1.0Gi".toList) := by
  refine ⟨?_, ?_, ?_, ?_, ?_⟩
  · obtain ⟨text, h, _, _, _, hB, _⟩ :=
      format_human_selects_unit 1023 32 (by norm_num) (by norm_num)
    rw [h, hB.mpr (by norm_num)]
    rfl
  · obtain ⟨text, h, _, _, _, _, _, _, hK, _⟩ :=
      format_human_selects_unit 1024 32 (by norm_num) (by norm_num)
    rw [h, hK ⟨by norm_num, by norm_num⟩,
      show ((1024 : ℕ) : ℚ) / 1024 = ((10 : ℕ) : ℚ) / 10 by norm_num, printf_f1_tenths]
    rfl
  · obtain ⟨text, h, _, _, _, _, _, _, hK, _⟩ :=
      format_human_selects_unit 1536 32 (by norm_num) (by norm_num)
    rw [h, hK ⟨by norm_num, by norm_num⟩,
      show ((1536 : ℕ) : ℚ) / 1024 = ((15 : ℕ) : ℚ) / 10 by norm_num, printf_f1_tenths]
    rfl
  · obtain ⟨text, h, _, _, _, _, _, hM, _⟩ :=
      format_human_selects_unit (1024 * 1024) 32 (by norm_num) (by norm_num)
    rw [h, hM ⟨by norm_num, by norm_num⟩,
      show ((1024 * 1024 : ℕ) : ℚ) / 1024 ^ 2 = ((10 : ℕ) : ℚ) / 10 by norm_num,
      printf_f1_tenths]
    rfl
  · obtain ⟨text, h, _, _, _, _, hG, _, _, hd, _⟩ :=
      format_human_selects_unit (1024 * 1024 * 1024) 32 (by norm_num) (by norm_num)
    rw [h, hG (by norm_num), hd (by norm_num),
      show ((1024 * 1024 * 1024 : ℕ) : ℚ) / 1024 ^ 3 = ((10 : ℕ) : ℚ) / 10 by norm_num,
      printf_f1_tenths]
    rfl

/-- The conversion to `double` of 9007199308428083, an odd number above `2 ^ 53`:
a tie, resolved to the even significand. -/
theorem double_of_u64_tie : double_of_u64 9007199308428083 = 9007199308428084 := by
  rw [double_of_u64, fl_of_binade _ 53 (by norm_num) (by norm_num)]
  rw [round_half_even_of_floor _ 4503599654214041 (by norm_num) (by norm_num)]
  norm_num

/-- C11 (counterexample): for `b = 9007199308428083` the text is `8388608.1Gi`,
while `b / 1024^3` written by `%.1f` is `8388608.0`: the number printed is
`(double)b / 1024^3`.  With a buffer of 4 bytes the text for 1024 is `1.0`,
without its `Ki`. -/
theorem format_human_prints_the_double :
    9007199308428083 < 2 ^ 64 ∧
    format_human 9007199308428083 32 = some ("8388608.1Gi".toList) ∧
    printf_f1 (((9007199308428083 : ℕ) : ℚ) / 1024 ^ 3) = "8388608.0".toList ∧
    format_human 1024 4 = some ("1.0".toList) ∧
    ¬ (['K', 'i'] <:+ "1.0".toList) := by
  have hG : format_human 9007199308428083 32 = some ("8388608.1Gi".toList) := by
    rw [format_human_text 9007199308428083 32 (by norm_num) (by norm_num),
      if_pos (by norm_num), double_of_u64_tie]
    have hr : round_half_even ((9007199308428084 : ℚ) / 2 ^ 30 * 10) = 83886081 := by
      rw [round_half_even_of_floor _ 83886080 (by norm_num) (by norm_num)]
      norm_num
    simp only [printf_f1, hr]
    rfl
  have hE : printf_f1 (((9007199308428083 : ℕ) : ℚ) / 1024 ^ 3) = "8388608.0".toList := by
    have hr : round_half_even (((9007199308428083 : ℕ) : ℚ) / 1024 ^ 3 * 10) = 83886080 := by
      rw [round_half_even_of_floor _ 83886080 (by norm_num) (by norm_num)]
      norm_num
    simp only [printf_f1, hr]
    rfl
  have hK : format_human 1024 4 = some ("1.0".toList) := by
    have hq : double_div (double_of_u64 1024) (double_of_u64 BYTES_PER_KB) =
        ((10 : ℕ) : ℚ) / 10 := by
      rw [double_of_BYTES_PER_KB, show double_of_u64 1024 = fl ((1024 : ℕ) : ℚ) from rfl,
        double_div_two_pow, fl_natCast 1024 (by norm_num)]
      norm_num
    have h1 : ¬ (1024 ≥ BYTES_PER_GB) := by decide
    have h2 : ¬ (1024 ≥ BYTES_PER_MB) := by decide
    have h3 : 1024 ≥ BYTES_PER_KB := by decide
    simp only [format_human, h1, h2, h3, if_true, if_false, hq, printf_f1_tenths]
    rfl
  exact ⟨by norm_num, hG, hE, hK, by decide⟩

/-! ## The totals row -/

theorem isDigit_ne_T (c : Char) (h : c.isDigit = true) : c ≠ 'T' := by
  rintro rfl
  revert h
  decide

theorem printf_f1_no_T : ∀ (v : ℚ), ∀ c ∈ printf_f1 v, c ≠ 'T' := by
  intro v c hc
  simp only [printf_f1, List.mem_append, List.mem_cons, List.mem_singleton] at hc
  rcases hc with h | h | h | h
  · exact isDigit_ne_T c (toDigits_isDigit _ c h)
  · rw [h]; decide
  · rw [h]; exact isDigit_ne_T _ (digitChar_isDigit _ (Nat.mod_lt _ (by norm_num)))
  · simp at h

theorem format_human_no_T (b bufsize : Nat) :
    ∀ c ∈ (format_human b bufsize).getD [], c ≠ 'T' := by
  have hllu : ∀ c ∈ printf_llu b ++ ['B'], c ≠ 'T' := by
    intro c hc
    rcases List.mem_append.mp hc with h | h
    · exact isDigit_ne_T c (toDigits_isDigit _ c h)
    · rw [List.mem_singleton.mp h]; decide
  have hf1 : ∀ (v : ℚ) (x y : Char), x ≠ 'T' → y ≠ 'T' →
      ∀ c ∈ printf_f1 v ++ [x, y], c ≠ 'T' := by
    intro v x y hx hy c hc
    rcases List.mem_append.mp hc with h | h
    · exact printf_f1_no_T v c h
    · simp only [List.mem_cons, List.mem_singleton] at h
      rcases h with h | h | h
      · rw [h]; exact hx
      · rw [h]; exact hy
      · simp at h
  intro c hc
  unfold format_human at hc
  split_ifs at hc
  · simp at hc
  · exact hf1 _ _ _ (by decide) (by decide) c (List.mem_of_mem_take hc)
  · exact hf1 _ _ _ (by decide) (by decide) c (List.mem_of_mem_take hc)
  · exact hf1 _ _ _ (by decide) (by decide) c (List.mem_of_mem_take hc)
  · exact hllu c (List.mem_of_mem_take hc)

theorem value_text_no_T (b : Nat) (opts : options_t) : ∀ c ∈ value_text b opts, c ≠ 'T' := by
  intro c hc
  unfold value_text at hc
  split_ifs at hc
  · exact format_human_no_T b 32 c hc
  · exact isDigit_ne_T c (toDigits_isDigit _ c hc)
  · exact isDigit_ne_T c (toDigits_isDigit _ c hc)

theorem print_value_no_T (b : Nat) (opts : options_t) : ∀ c ∈ print_value b opts, c ≠ 'T' := by
  intro c hc
  rw [print_value_eq] at hc
  simp only [pad_left, List.mem_cons, List.mem_append, List.mem_replicate] at hc
  rcases hc with h | h | h
  · rw [h]; decide
  · rw [h.2]; decide
  · exact value_text_no_T b opts c h

theorem header_row_no_T (opts : options_t) : ∀ c ∈ header_row opts, c ≠ 'T' := by
  by_cases hw : opts.wide = 0 <;> by_cases hu : opts.unit = unit_type_t.UNIT_HUMAN <;>
    simp only [header_row, hw, hu, ne_eq, not_true_eq_false, not_false_eq_true, if_true,
      if_false] <;>
    decide

theorem mem_row_no_T (mem : mem_info_t) (opts : options_t) :
    ∀ c ∈ mem_row mem opts, c ≠ 'T' := by
  intro c hc
  unfold mem_row at hc
  have hlabel : ∀ c ∈ pad_right 7 ['M', 'e', 'm', ':'], c ≠ 'T' := by decide
  split_ifs at hc <;>
    simp only [List.mem_append] at hc <;>
    rcases hc with ((((h | h) | h) | h) | h) | h <;>
    first
    | exact hlabel c h
    | exact print_value_no_T _ opts c h
    | (rcases h with ((h | h) | h) | h <;> exact print_value_no_T _ opts c h)
    | (rcases h with h | h <;> exact print_value_no_T _ opts c h)

theorem swap_row_no_T (swap : swap_info_t) (opts : options_t) :
    ∀ c ∈ swap_row swap opts, c ≠ 'T' := by
  intro c hc
  unfold swap_row at hc
  have hlabel : ∀ c ∈ pad_right 7 ['S', 'w', 'a', 'p', ':'], c ≠ 'T' := by decide
  simp only [blank_cells_eq, List.mem_append] at hc
  rcases hc with (((h | h) | h) | h) | h
  · exact hlabel c h
  · exact print_value_no_T _ opts c h
  · exact print_value_no_T _ opts c h
  · exact print_value_no_T _ opts c h
  · split_ifs at h <;>
      (rw [(List.mem_replicate.mp h).2]; decide)

/-- Without the totals option no `T` is written. -/
theorem rows_no_T (sys_mem : system_memory_t) (opts : options_t) :
    ∀ c ∈ header_row opts ++ ['\n'] ++ mem_row sys_mem.mem opts ++ ['\n'] ++
      swap_row sys_mem.swap opts ++ ['\n'], c ≠ 'T' := by
  intro c hc
  simp only [List.mem_append, List.mem_singleton] at hc
  rcases hc with ((((h | h) | h) | h) | h) | h
  · exact header_row_no_T opts c h
  · rw [h]; decide
  · exact mem_row_no_T _ opts c h
  · rw [h]; decide
  · exact swap_row_no_T _ opts c h
  · rw [h]; decide

/-- C12 (amended): for every snapshot and every display configuration,
`print_memory_info` writes the header, the memory row and the swap row and then,
if and only if the totals option is set, one row more; the text `Total:` occurs
in the output iff the option is set.  That row is the label and exactly three
cells, which show `mem.total + swap.total`, `mem.used + swap.used` and
`mem.free + swap.free` computed modulo `2 ^ 64`: the exact sums whenever these
are below `2 ^ 64`.  It has no further cell: when the three values fit their
cells its length is `7 + 3 * (w + 1)` in wide and in compact mode alike. -/
theorem totals_row (sys_mem : system_memory_t) (opts : options_t) :
    print_memory_info sys_mem opts =
      header_row opts ++ ['\n'] ++ mem_row sys_mem.mem opts ++ ['\n'] ++
        swap_row sys_mem.swap opts ++ ['\n'] ++
        (if opts.totals ≠ 0 then
          pad_right 7 ['T', 'o', 't', 'a', 'l', ':'] ++
            print_value ((sys_mem.mem.total + sys_mem.swap.total) % 2 ^ 64) opts ++
            print_value ((sys_mem.mem.used + sys_mem.swap.used) % 2 ^ 64) opts ++
            print_value ((sys_mem.mem.free + sys_mem.swap.free) % 2 ^ 64) opts ++ ['\n']
         else []) ∧
    (['T', 'o', 't', 'a', 'l', ':'] <:+: print_memory_info sys_mem opts ↔ opts.totals ≠ 0) ∧
    (sys_mem.mem.total + sys_mem.swap.total < 2 ^ 64 →
      (sys_mem.mem.total + sys_mem.swap.total) % 2 ^ 64 =
        sys_mem.mem.total + sys_mem.swap.total) ∧
    (sys_mem.mem.used + sys_mem.swap.used < 2 ^ 64 →
      (sys_mem.mem.used + sys_mem.swap.used) % 2 ^ 64 =
        sys_mem.mem.used + sys_mem.swap.used) ∧
    (sys_mem.mem.free + sys_mem.swap.free < 2 ^ 64 →
      (sys_mem.mem.free + sys_mem.swap.free) % 2 ^ 64 =
        sys_mem.mem.free + sys_mem.swap.free) ∧
    ((∀ x ∈ [(sys_mem.mem.total + sys_mem.swap.total) % 2 ^ 64,
              (sys_mem.mem.used + sys_mem.swap.used) % 2 ^ 64,
              (sys_mem.mem.free + sys_mem.swap.free) % 2 ^ 64],
        (value_text x opts).length ≤ column_width opts) →
      (pad_right 7 ['T', 'o', 't', 'a', 'l', ':'] ++
        print_value ((sys_mem.mem.total + sys_mem.swap.total) % 2 ^ 64) opts ++
        print_value ((sys_mem.mem.used + sys_mem.swap.used) % 2 ^ 64) opts ++
        print_value ((sys_mem.mem.free + sys_mem.swap.free) % 2 ^ 64) opts).length =
          7 + 3 * (column_width opts + 1)) := by
  have hout : print_memory_info sys_mem opts =
      header_row opts ++ ['\n'] ++ mem_row sys_mem.mem opts ++ ['\n'] ++
        swap_row sys_mem.swap opts ++ ['\n'] ++
        (if opts.totals ≠ 0 then
          pad_right 7 ['T', 'o', 't', 'a', 'l', ':'] ++
            print_value ((sys_mem.mem.total + sys_mem.swap.total) % 2 ^ 64) opts ++
            print_value ((sys_mem.mem.used + sys_mem.swap.used) % 2 ^ 64) opts ++
            print_value ((sys_mem.mem.free + sys_mem.swap.free) % 2 ^ 64) opts ++ ['\n']
         else []) := by
    by_cases hu : opts.unit = unit_type_t.UNIT_HUMAN <;>
      simp [print_memory_info, print_header, print_human, print_numeric, print_totals, u64, hu]
  refine ⟨hout, ?_, fun h => Nat.mod_eq_of_lt h, fun h => Nat.mod_eq_of_lt h,
    fun h => Nat.mod_eq_of_lt h, ?_⟩
  · rw [hout]
    constructor
    · intro hin
      by_contra ht
      rw [if_neg (not_not.mpr ht), List.append_nil] at hin
      exact rows_no_T sys_mem opts 'T' (hin.subset (by simp)) rfl
    · intro ht
      rw [if_pos ht]
      refine ⟨header_row opts ++ ['\n'] ++ mem_row sys_mem.mem opts ++ ['\n'] ++
          swap_row sys_mem.swap opts ++ ['\n'],
        [' '] ++ print_value ((sys_mem.mem.total + sys_mem.swap.total) % 2 ^ 64) opts ++
          print_value ((sys_mem.mem.used + sys_mem.swap.used) % 2 ^ 64) opts ++
          print_value ((sys_mem.mem.free + sys_mem.swap.free) % 2 ^ 64) opts ++ ['\n'], ?_⟩
      simp [pad_right]
  · intro hfit
    have h1 := print_value_length _ opts
      (hfit ((sys_mem.mem.total + sys_mem.swap.total) % 2 ^ 64) (by simp))
    have h2 := print_value_length _ opts
      (hfit ((sys_mem.mem.used + sys_mem.swap.used) % 2 ^ 64) (by simp))
    have h3 := print_value_length _ opts
      (hfit ((sys_mem.mem.free + sys_mem.swap.free) % 2 ^ 64) (by simp))
    simp only [List.length_append, h1, h2, h3,
      pad_right_length 7 ['T', 'o', 't', 'a', 'l', ':'] (by decide)]
    ring

/-- C12 (witness): for the snapshot of `host_ok` shown with `-b -t` the sums are
exact and the totals row has `7 + 3 * 13` characters. -/
theorem totals_row_witness :
    (['T', 'o', 't', 'a', 'l', ':'] <:+:
      print_memory_info (get_system_memory host_ok).2 opts_bytes_totals) ∧
    ((get_system_memory host_ok).2.mem.total + (get_system_memory host_ok).2.swap.total)
      % 2 ^ 64 = 17179869184 + 2147483648 ∧
    (pad_right 7 ['T', 'o', 't', 'a', 'l', ':'] ++
      print_value (((get_system_memory host_ok).2.mem.total +
        (get_system_memory host_ok).2.swap.total) % 2 ^ 64) opts_bytes_totals ++
      print_value (((get_system_memory host_ok).2.mem.used +
        (get_system_memory host_ok).2.swap.used) % 2 ^ 64) opts_bytes_totals ++
      print_value (((get_system_memory host_ok).2.mem.free +
        (get_system_memory host_ok).2.swap.free) % 2 ^ 64) opts_bytes_totals).length =
        7 + 3 * (column_width opts_bytes_totals + 1) :=
  have h := totals_row (get_system_memory host_ok).2 opts_bytes_totals
  ⟨h.2.1.mpr (by decide), h.2.2.1 (by decide), h.2.2.2.2.2 (by decide)⟩

/-- C12 (counterexample): memory total and swap total both `2 ^ 63` bytes, shown
with `-b -t`: the first cell of the totals row shows 0, the sum modulo `2 ^ 64`,
and not the exact sum `2 ^ 64`. -/
theorem totals_row_wraps :
    opts_bytes_totals.totals ≠ 0 ∧
    sys_huge.mem.total + sys_huge.swap.total = 2 ^ 64 ∧
    print_totals sys_huge.mem sys_huge.swap opts_bytes_totals =
      pad_right 7 ['T', 'o', 't', 'a', 'l', ':'] ++ print_value 0 opts_bytes_totals ++
        print_value 0 opts_bytes_totals ++ print_value 0 opts_bytes_totals ++ ['\n'] ∧
    print_value 0 opts_bytes_totals ≠
      print_value (sys_huge.mem.total + sys_huge.swap.total) opts_bytes_totals := by
  decide

end MacFree
